import Mathlib

/-!
# Optify frontend: streaming split-frame decoder and recent-activity history

A shallow embedding of `fetchCompressedPage` (src/utils/api.js) and of
`addToHistory` (src/hooks/usePageCompression.js), with the properties of the
design document stated over it.

Conventions of the embedding.

* A byte is a natural number; a chunk (`Uint8Array`) is a list of bytes.
* Text is a list of Unicode scalar values (`Char`).  The program's strings are
  only ever produced by the UTF-8 decoder, so they hold no lone surrogate, and
  searching them for an ASCII literal gives the same answer on scalar values
  as on UTF-16 code units.
* The callbacks `onMetadata` and `onContent` are recorded as a trace of calls;
  a call returns normally or throws (`Callbacks`).
* The platform functions the code calls (`fetch`, `encodeURIComponent`,
  `JSON.parse`) are the fields of a `Platform`; `JSON.parse` is a function
  `parse : Text → Option α` (`none` when it throws), and the theorems hold for
  every platform.
-/

namespace Optify

/-- Text: a sequence of Unicode scalar values. -/
abbrev Text := List Char

/-- A chunk of bytes as delivered by `reader.read()`. -/
abbrev Bytes := List Nat

/-! ## The platform's UTF-8 decoder (`new TextDecoder()`) -/

/-- State of the UTF-8 decoder of the Encoding standard. -/
structure Utf8Decoder where
  codePoint : Nat
  bytesSeen : Nat
  bytesNeeded : Nat
  lowerBoundary : Nat
  upperBoundary : Nat
  deriving DecidableEq, Repr

/-- The resting state: code point, bytes needed and bytes seen are 0, the
boundaries are 0x80 and 0xBF. -/
def Utf8Decoder.init : Utf8Decoder :=
  { codePoint := 0, bytesSeen := 0, bytesNeeded := 0,
    lowerBoundary := 0x80, upperBoundary := 0xBF }

/-- The replacement character U+FFFD emitted for a decoding error. -/
def replacementChar : Char := Char.ofNat 0xFFFD

/-- The byte order mark U+FEFF, which the decoder strips at the start. -/
def byteOrderMark : Char := Char.ofNat 0xFEFF

/-- One byte handled while no multi-byte sequence is open (`bytes needed` is 0):
the result is the new state and the scalar values emitted.  The masks
`b &&& 0x1F`, `b &&& 0xF` and `b &&& 0x7` are written `b % 32`, `b % 16` and
`b % 8`. -/
def Utf8Decoder.lead (d : Utf8Decoder) (b : Nat) : Utf8Decoder × List Char :=
  if b ≤ 0x7F then (d, [Char.ofNat b])
  else if 0xC2 ≤ b ∧ b ≤ 0xDF then
    ({ d with bytesNeeded := 1, codePoint := b % 32 }, [])
  else if 0xE0 ≤ b ∧ b ≤ 0xEF then
    ({ d with bytesNeeded := 2, codePoint := b % 16,
              lowerBoundary := if b = 0xE0 then 0xA0 else d.lowerBoundary,
              upperBoundary := if b = 0xED then 0x9F else d.upperBoundary }, [])
  else if 0xF0 ≤ b ∧ b ≤ 0xF4 then
    ({ d with bytesNeeded := 3, codePoint := b % 8,
              lowerBoundary := if b = 0xF0 then 0x90 else d.lowerBoundary,
              upperBoundary := if b = 0xF4 then 0x8F else d.upperBoundary }, [])
  else (d, [replacementChar])

/-- The decoder's handler for one byte, errors replaced by U+FFFD.  A byte
outside the expected continuation range closes the open sequence with an
error and is then handled again as a leading byte.  `(cp <<< 6) ||| (b &&& 0x3F)`
is written `cp * 64 + b % 64`. -/
def Utf8Decoder.handle (d : Utf8Decoder) (b : Nat) : Utf8Decoder × List Char :=
  if d.bytesNeeded = 0 then d.lead b
  else if b < d.lowerBoundary ∨ d.upperBoundary < b then
    let r := Utf8Decoder.init.lead b
    (r.1, replacementChar :: r.2)
  else
    let cp := d.codePoint * 64 + b % 64
    if d.bytesSeen + 1 ≠ d.bytesNeeded then
      ({ d with lowerBoundary := 0x80, upperBoundary := 0xBF,
                codePoint := cp, bytesSeen := d.bytesSeen + 1 }, [])
    else (Utf8Decoder.init, [Char.ofNat cp])

/-- The decoder run over a sequence of bytes: the final state and the scalar
values emitted. -/
def Utf8Decoder.run (d : Utf8Decoder) : Bytes → Utf8Decoder × List Char
  | [] => (d, [])
  | b :: bs =>
    let r := d.handle b
    let q := r.1.run bs
    (q.1, r.2 ++ q.2)

/-- Serialisation of the emitted scalar values under the `BOM seen` flag: the
first scalar value of the stream is dropped when it is the byte order mark. -/
def serialize (bomSeen : Bool) (out : List Char) : Bool × Text :=
  if bomSeen then (true, out)
  else
    match out with
    | [] => (false, [])
    | c :: cs => (true, if c = byteOrderMark then cs else c :: cs)

/-- A `TextDecoder` object for UTF-8 used with `{ stream: true }`: the state of
its UTF-8 decoder and its `BOM seen` flag. -/
structure TextDecoder where
  decoder : Utf8Decoder
  bomSeen : Bool
  deriving DecidableEq, Repr

/-- The object created by `new TextDecoder()`. -/
def TextDecoder.new : TextDecoder :=
  { decoder := Utf8Decoder.init, bomSeen := false }

/-- `decoder.decode(value, { stream: true })`: the bytes of the chunk are
decoded, an incomplete sequence at the end of the chunk stays pending in the
decoder. -/
def TextDecoder.decodeStream (d : TextDecoder) (value : Bytes) : TextDecoder × Text :=
  let r := d.decoder.run value
  let s := serialize d.bomSeen r.2
  ({ decoder := r.1, bomSeen := s.1 }, s.2)

/-- The end-of-stream step of the decoder (`decoder.decode()` without
`stream`): a sequence still pending becomes one replacement character. -/
def TextDecoder.flush (d : TextDecoder) : Text :=
  (serialize d.bomSeen (if d.decoder.bytesNeeded = 0 then [] else [replacementChar])).2

/-- `new TextDecoder().decode(bytes)`: the UTF-8 decoding of a whole byte
sequence at once. -/
def utf8Decode (bytes : Bytes) : Text :=
  let r := TextDecoder.new.decodeStream bytes
  r.2 ++ r.1.flush

/-- The UTF-8 encoding of one scalar value. -/
def utf8EncodeChar (c : Char) : Bytes :=
  let n := c.toNat
  if n ≤ 0x7F then [n]
  else if n ≤ 0x7FF then [0xC0 + n / 64, 0x80 + n % 64]
  else if n ≤ 0xFFFF then [0xE0 + n / 4096, 0x80 + n / 64 % 64, 0x80 + n % 64]
  else [0xF0 + n / 262144, 0x80 + n / 4096 % 64, 0x80 + n / 64 % 64, 0x80 + n % 64]

/-- The UTF-8 bytes of a text. -/
def utf8Encode (s : Text) : Bytes := s.flatMap utf8EncodeChar

/-! ## String operations used by the frame splitter -/

/-- The separator literal between the header and the body. -/
def separator : Text := "---SEPARATOR---".toList

/-- `s.includes(sep)`: does `sep` occur in `s`? -/
def includes : Text → Text → Bool
  | [], sep => sep.isPrefixOf []
  | c :: cs, sep => sep.isPrefixOf (c :: cs) || includes cs sep

/-- The text before and the text after the first occurrence of `sep`, if any. -/
def splitFirst (sep : Text) : Text → Option (Text × Text)
  | [] => if sep.isPrefixOf [] then some ([], []) else none
  | c :: cs =>
    if sep.isPrefixOf (c :: cs) then some ([], (c :: cs).drop sep.length)
    else (splitFirst sep cs).map fun p => (c :: p.1, p.2)

/-- Splitting at successive occurrences of `sep`, left to right, at most
`fuel` times. -/
def splitFuel (sep : Text) : Nat → Text → List Text
  | 0, s => [s]
  | fuel + 1, s =>
    match splitFirst sep s with
    | none => [s]
    | some (a, b) => a :: splitFuel sep fuel b

/-- `s.split(sep)` for a non-empty separator: the pieces between successive
occurrences of `sep` (a text of length `n` has fewer than `n + 1` of them). -/
def split (s sep : Text) : List Text := splitFuel sep s.length s

/-- `parts.join(sep)`. -/
def join (parts : List Text) (sep : Text) : Text := sep.intercalate parts

/-! ## fetchCompressedPage -/

/-- One callback invocation made by `fetchCompressedPage`. -/
inductive Call (α : Type) where
  | onMetadata (metadata : α)
  | onContent (text : Text)
  deriving DecidableEq, Repr

/-- What a rejected promise carries: an `Error` with a message created by the
function itself, or a failure `e` of the platform passed on unchanged. -/
inductive Thrown (ε : Type) where
  | error (message : String)
  | cause (e : ε)
  deriving DecidableEq, Repr

/-- The response of `fetch`: `body` lists the results of the successive
`reader.read()` calls that deliver a chunk or fail; after the last one the
reader reports `done`. -/
structure Response (ε : Type) where
  ok : Bool
  status : Nat
  statusText : String
  body : List (Except ε Bytes)

/-- The platform functions `fetchCompressedPage` calls.  `parse` is
`JSON.parse`, `none` standing for a thrown `SyntaxError`. -/
structure Platform (α ε : Type) where
  encodeURIComponent : String → String
  fetch : String → Except ε (Response ε)
  parse : Text → Option α

/-- The calls made, in order, and how the returned promise settles. -/
structure Outcome (α ε : Type) where
  calls : List (Call α)
  result : Except (Thrown ε) Unit

/-- The callbacks the caller supplies, as far as the function observes them: a
call returns normally (`none`) or throws (`some e`).  The first argument is the
trace of the calls made before, on which the outcome may depend. -/
structure Callbacks (α ε : Type) where
  onMetadata : List (Call α) → α → Option ε
  onContent : List (Call α) → Text → Option ε

/-- Callbacks that return normally on every call. -/
def Callbacks.ReturnNormally {α ε : Type} (cb : Callbacks α ε) : Prop :=
  (∀ trace metadata, cb.onMetadata trace metadata = none) ∧
  (∀ trace text, cb.onContent trace text = none)

/-- Callbacks that do nothing and never throw. -/
def Callbacks.quiet (α ε : Type) : Callbacks α ε :=
  { onMetadata := fun _ _ => none, onContent := fun _ _ => none }

/-- The local variables of the read loop, with the trace of callback calls made
so far (a call that throws is part of the trace). -/
structure Loop (α : Type) where
  decoder : TextDecoder
  buffer : Text
  metadataReceived : Bool
  calls : List (Call α)

/-- The variables on entry to the loop. -/
def Loop.init (α : Type) : Loop α :=
  { decoder := TextDecoder.new, buffer := [], metadataReceived := false, calls := [] }

/-- One iteration of the `while (true)` loop for a delivered chunk `value`
(api.js lines 24-52): the variables after it, or the outcome of the whole
function when an exception leaves the loop.  In the first branch `JSON.parse`
and both callback calls stand inside the `try` (lines 33-43), so an exception
of any of them is caught and logged, and the statements after it are skipped:
`metadataReceived = true` after a throwing `onMetadata`, `buffer = ''` after a
throwing `onContent`.  In the second branch an exception of `onContent` reaches
the outer `catch`, which throws it again. -/
def Loop.iterate {α ε : Type} (parse : Text → Option α) (cb : Callbacks α ε) (st : Loop α)
    (value : Bytes) : Except (Outcome α ε) (Loop α) :=
  let r := st.decoder.decodeStream value
  let buffer := st.buffer ++ r.2
  if !st.metadataReceived && includes buffer separator then
    let parts := split buffer separator
    let metadataChunk := parts.head?
    let remainingContent := join (parts.drop 1) separator
    match metadataChunk.bind parse with
    | none =>
      .ok { decoder := r.1, buffer := buffer, metadataReceived := st.metadataReceived,
            calls := st.calls }
    | some metadata =>
      match cb.onMetadata st.calls metadata with
      | some _ =>
        .ok { decoder := r.1, buffer := buffer, metadataReceived := st.metadataReceived,
              calls := st.calls ++ [Call.onMetadata metadata] }
      | none =>
        if remainingContent ≠ [] then
          match cb.onContent (st.calls ++ [Call.onMetadata metadata]) remainingContent with
          | some _ =>
            .ok { decoder := r.1, buffer := buffer, metadataReceived := true,
                  calls := st.calls ++ [Call.onMetadata metadata] ++
                    [Call.onContent remainingContent] }
          | none =>
            .ok { decoder := r.1, buffer := [], metadataReceived := true,
                  calls := st.calls ++ [Call.onMetadata metadata] ++
                    [Call.onContent remainingContent] }
        else
          .ok { decoder := r.1, buffer := [], metadataReceived := true,
                calls := st.calls ++ [Call.onMetadata metadata] }
  else if st.metadataReceived then
    match cb.onContent st.calls buffer with
    | some e =>
      .error { calls := st.calls ++ [Call.onContent buffer], result := .error (.cause e) }
    | none =>
      .ok { decoder := r.1, buffer := [], metadataReceived := st.metadataReceived,
            calls := st.calls ++ [Call.onContent buffer] }
  else
    .ok { decoder := r.1, buffer := buffer, metadataReceived := st.metadataReceived,
          calls := st.calls }

/-- The text the decoder hands to the loop, chunk by chunk, concatenated. -/
def streamText (d : TextDecoder) : List Bytes → Text
  | [] => []
  | value :: rest =>
    let r := d.decodeStream value
    r.2 ++ streamText r.1 rest

/-- The statement after the loop (api.js lines 55-58) and the normal return;
an exception of `onContent` reaches the outer `catch`. -/
def Loop.finish {α ε : Type} (cb : Callbacks α ε) (st : Loop α) : Outcome α ε :=
  if st.buffer ≠ [] ∧ st.metadataReceived = true then
    match cb.onContent st.calls st.buffer with
    | some e =>
      { calls := st.calls ++ [Call.onContent st.buffer], result := .error (.cause e) }
    | none => { calls := st.calls ++ [Call.onContent st.buffer], result := .ok () }
  else { calls := st.calls, result := .ok () }

/-- The read loop over the results of the successive reads. -/
def Loop.readAll {α ε : Type} (parse : Text → Option α) (cb : Callbacks α ε) :
    Loop α → List (Except ε Bytes) → Outcome α ε
  | st, [] => st.finish cb
  | st, .error e :: _ => { calls := st.calls, result := .error (.cause e) }
  | st, .ok value :: rest =>
    match st.iterate parse cb value with
    | .ok next => Loop.readAll parse cb next rest
    | .error outcome => outcome

/-- The loop variables after the chunks of a list have been delivered one
after the other, or the outcome when an exception has left the loop. -/
def Loop.iterateAll {α ε : Type} (parse : Text → Option α) (cb : Callbacks α ε) :
    Loop α → List Bytes → Except (Outcome α ε) (Loop α)
  | st, [] => .ok st
  | st, value :: rest =>
    match st.iterate parse cb value with
    | .ok next => Loop.iterateAll parse cb next rest
    | .error outcome => .error outcome

/-- The function `fetchCompressedPage(url, onMetadata, onContent)`, the two
callbacks given as `cb`. -/
def fetchCompressedPage {α ε : Type} (env : Platform α ε) (cb : Callbacks α ε)
    (url : String) : Outcome α ε :=
  let apiUrl := "/api/process?url=" ++ env.encodeURIComponent url
  match env.fetch apiUrl with
  | .error e => { calls := [], result := .error (.cause e) }
  | .ok response =>
    if !response.ok then
      { calls := [],
        result := .error (.error
          ("HTTP " ++ toString response.status ++ ": " ++ response.statusText)) }
    else Loop.readAll env.parse cb (Loop.init α) response.body

/-- The platform `env` with a `fetch` that answers every request with
`response`. -/
def Platform.answering {α ε : Type} (env : Platform α ε) (response : Response ε) :
    Platform α ε :=
  { encodeURIComponent := env.encodeURIComponent,
    fetch := fun _ => .ok response,
    parse := env.parse }

/-- The response whose byte source delivers exactly the chunks of `delivered`
and then ends, status fields as in `response`. -/
def Response.delivering {ε : Type} (response : Response ε) (delivered : List Bytes) :
    Response ε :=
  { ok := response.ok, status := response.status, statusText := response.statusText,
    body := delivered.map Except.ok }

/-- The invariant of the read loop, `text` being all the text decoded so far.
Before the header is accepted nothing has been dispatched, the buffer holds the
whole text, and if the text holds a separator the text before its first
occurrence does not parse.  Afterwards the buffer is empty and the calls are
the parsed header followed by fragments that make up the text after the first
separator. -/
def Loop.Inv {α : Type} (parse : Text → Option α) (text : Text) (st : Loop α) : Prop :=
  (st.metadataReceived = false ∧ st.calls = [] ∧ st.buffer = text ∧
      ∀ a b, splitFirst separator text = some (a, b) → parse a = none) ∨
  (st.metadataReceived = true ∧ st.buffer = [] ∧
      ∃ m cs a, splitFirst separator text = some (a, List.flatten cs) ∧ parse a = some m ∧
        st.calls = Call.onMetadata m :: cs.map Call.onContent)

/-! ## The recent-activity history (usePageCompression.js) -/

/-- An entry of the history list. -/
structure HistoryEntry where
  title : String
  url : String
  timestamp : Nat
  savedFormatted : String
  deriving DecidableEq, Repr

/-- The fields of `meta.meta` that `addToHistory` reads; `none` is a field that
is absent. -/
structure PageMeta where
  title : Option String
  url : String
  original_size_bytes : Option Nat
  deriving DecidableEq, Repr

/-- The metadata object handed to `addToHistory`. -/
structure Metadata where
  meta : PageMeta
  deriving DecidableEq, Repr

/-- `value || fallback` on a string that may be absent: the empty string is
falsy as well. -/
def stringOr (value : Option String) (fallback : String) : String :=
  match value with
  | some s => if s = "" then fallback else s
  | none => fallback

/-- `value || 0` on a number that may be absent. -/
def numberOr (value : Option Nat) (fallback : Nat) : Nat :=
  match value with
  | some n => if n = 0 then fallback else n
  | none => fallback

/-- The entry built at the top of `addToHistory`.  `formatBytes` computes with
floating-point logarithms and is a parameter; `now` is `Date.now()`. -/
def newEntry (formatBytes : Nat → String) (now : Nat) (m : Metadata) : HistoryEntry :=
  { title := stringOr m.meta.title "Untitled Page",
    url := m.meta.url,
    timestamp := now,
    savedFormatted := formatBytes (numberOr m.meta.original_size_bytes 0) }

/-- The state update of `addToHistory`: the list returned to `setHistory`, which
is also the list written to the `optify_history` slot. -/
def addToHistory (formatBytes : Nat → String) (now : Nat) (m : Metadata)
    (prev : List HistoryEntry) : List HistoryEntry :=
  let entry := newEntry formatBytes now m
  let filtered := prev.filter fun item => item.url != entry.url
  let updated := (entry :: filtered).take 5
  updated

/-- Recording a sequence of metadata events in order, each with the time
`Date.now()` returned when it was recorded, from the history `start`. -/
def recordAll (formatBytes : Nat → String) (events : List (Nat × Metadata))
    (start : List HistoryEntry) : List HistoryEntry :=
  events.foldl (fun history ev => addToHistory formatBytes ev.1 ev.2 history) start

/-! ## The initial history (usePageCompression.js lines 12-22) -/

/-- A JSON value as returned by `JSON.parse`; numbers are kept to integers. -/
inductive Json where
  | null
  | bool (b : Bool)
  | number (n : Int)
  | string (s : String)
  | array (items : List Json)
  | object (members : List (String × Json))

/-- The JSON object of a history entry, as written by
`JSON.stringify(updated)`. -/
def HistoryEntry.toJson (e : HistoryEntry) : Json :=
  .object [("title", .string e.title), ("url", .string e.url),
    ("timestamp", .number (Int.ofNat e.timestamp)),
    ("savedFormatted", .string e.savedFormatted)]

/-- A list of history entries as a JavaScript value: the array of their
objects.  The empty list is `Json.array []`. -/
def historyValue (l : List HistoryEntry) : Json := .array (l.map HistoryEntry.toJson)

/-- What the initialiser of the history state reads from its surroundings:
whether `window` is defined, `localStorage.getItem` (`none` for `null`, an
error when it throws) and `JSON.parse` (`none` when it throws). -/
structure Browser (ε : Type) where
  windowDefined : Bool
  getItem : String → Except ε (Option Text)
  parse : Text → Option Json

/-- The `try` block of the initialiser (usePageCompression.js lines 15-16):
its value, or `none` when `getItem` or `JSON.parse` throws. -/
def savedHistory {ε : Type} (env : Browser ε) : Option Json :=
  match env.getItem "optify_history" with
  | .error _ => none
  | .ok saved =>
    match saved with
    | none => some (.array [])
    | some text => if text = [] then some (.array []) else env.parse text

/-- The initial value of the `history` state (usePageCompression.js lines
12-22). -/
def initialHistory {ε : Type} (env : Browser ε) : Json :=
  if env.windowDefined then
    match savedHistory env with
    | some value => value
    | none => .array []
  else .array []

/-! ## Sample inputs

A reference reader for a fragment of JSON (objects whose members are strings
without escapes, no white space) and concrete responses built on it.  Every
text it accepts is a JSON text, and is read as the list of its members. -/

/-- The body of a JSON string up to its closing quote, and the text after the
quote.  A backslash or a control character is refused. -/
def readString : Text → Option (Text × Text)
  | [] => none
  | c :: cs =>
    if c = Char.ofNat 0x22 then some ([], cs)
    else if c = Char.ofNat 0x5C ∨ c.toNat < 0x20 then none
    else (readString cs).map fun p => (c :: p.1, p.2)

/-- The members `"key":"value"` of an object, separated by commas and closed by
a brace that ends the text. -/
def readMembers : Nat → Text → Option (List (Text × Text))
  | 0, _ => none
  | fuel + 1, s =>
    match s with
    | [] => none
    | q :: s1 =>
      if q ≠ Char.ofNat 0x22 then none
      else
        match readString s1 with
        | some (key, c1 :: q1 :: s2) =>
          if c1 ≠ Char.ofNat 0x3A ∨ q1 ≠ Char.ofNat 0x22 then none
          else
            match readString s2 with
            | some (value, d :: s3) =>
              if d = Char.ofNat 0x7D ∧ s3 = [] then some [(key, value)]
              else if d = Char.ofNat 0x2C then
                (readMembers fuel s3).map fun l => (key, value) :: l
              else none
            | _ => none
        | _ => none

/-- The sample instance of `JSON.parse`: the members of a flat object of
strings, `none` for any other text. -/
def sampleParse (s : Text) : Option (List (Text × Text)) :=
  match s with
  | [] => none
  | c :: rest =>
    if c ≠ Char.ofNat 0x7B then none
    else if rest = [Char.ofNat 0x7D] then some []
    else readMembers rest.length rest

/-- A platform whose `fetch` answers every request with `response` and whose
`JSON.parse` is `sampleParse`. -/
def samplePlatform (response : Response String) : Platform (List (Text × Text)) String :=
  { encodeURIComponent := fun u => u,
    fetch := fun _ => .ok response,
    parse := sampleParse }

/-- A successful response (HTTP 200) that delivers the given chunks and ends. -/
def okResponse (chunks : List Bytes) : Response String :=
  { ok := true, status := 200, statusText := "OK", body := chunks.map Except.ok }

/-- A header text: the object with the one member `url`. -/
def sampleHeader : Text := "\x7b\"url\":\"caf\u00e9\"\x7d".toList

/-- A body text that holds the separator literal and ends in a three-byte
character. -/
def sampleBody : Text := "a---SEPARATOR---b\u20ac".toList

/-- The bytes of `sampleHeader`, the separator and `sampleBody`, cut inside the
two-byte character of the header, inside the separator and inside the last
character of the body. -/
def sampleChunks : List Bytes :=
  let bytes := utf8Encode (sampleHeader ++ separator ++ sampleBody)
  [bytes.take 12, (bytes.drop 12).take 11, (bytes.drop 23).take 25, bytes.drop 48]

/-- A header text that is not JSON. -/
def malformedHeader : Text := "\x7bbad".toList

/-- The value of a numeral: digits only, no leading zero. -/
def readNumber (s : Text) : Option Nat :=
  if s = [] then none
  else if s.head? = some (Char.ofNat 0x30) ∧ s.length ≠ 1 then none
  else if s.all Char.isDigit then some (s.foldl (fun n c => 10 * n + (c.toNat - 0x30)) 0)
  else none

mutual
/-- One JSON value at the head of the text, and the text after it. -/
def readValue : Nat → Text → Option (Json × Text)
  | 0, _ => none
  | fuel + 1, s =>
    if "null".toList.isPrefixOf s then some (.null, s.drop 4)
    else if "true".toList.isPrefixOf s then some (.bool true, s.drop 4)
    else if "false".toList.isPrefixOf s then some (.bool false, s.drop 5)
    else
      match s with
      | [] => none
      | c :: rest =>
        if c = Char.ofNat 0x22 then
          (readString rest).map fun p => (.string (String.mk p.1), p.2)
        else if c = Char.ofNat 0x5B then
          if rest.head? = some (Char.ofNat 0x5D) then some (.array [], rest.drop 1)
          else (readItems fuel rest).map fun p => (.array p.1, p.2)
        else if c = Char.ofNat 0x7B then
          if rest.head? = some (Char.ofNat 0x7D) then some (.object [], rest.drop 1)
          else (readFields fuel rest).map fun p => (.object p.1, p.2)
        else
          (readNumber (s.takeWhile Char.isDigit)).map fun n =>
            (.number (Int.ofNat n), s.dropWhile Char.isDigit)
/-- The values of an array after its opening bracket, up to the closing one. -/
def readItems : Nat → Text → Option (List Json × Text)
  | 0, _ => none
  | fuel + 1, s =>
    match readValue fuel s with
    | some (v, d :: rest) =>
      if d = Char.ofNat 0x5D then some ([v], rest)
      else if d = Char.ofNat 0x2C then (readItems fuel rest).map fun p => (v :: p.1, p.2)
      else none
    | _ => none
/-- The members of an object after its opening brace, up to the closing one. -/
def readFields : Nat → Text → Option (List (String × Json) × Text)
  | 0, _ => none
  | fuel + 1, s =>
    match s with
    | [] => none
    | q :: s1 =>
      if q ≠ Char.ofNat 0x22 then none
      else
        match readString s1 with
        | some (key, c :: s2) =>
          if c ≠ Char.ofNat 0x3A then none
          else
            match readValue fuel s2 with
            | some (v, d :: rest) =>
              if d = Char.ofNat 0x7D then some ([(String.mk key, v)], rest)
              else if d = Char.ofNat 0x2C then
                (readFields fuel rest).map fun p => ((String.mk key, v) :: p.1, p.2)
              else none
            | _ => none
        | _ => none
end

/-- The sample instance of `JSON.parse` for the stored history: a JSON text
without white space, escapes, fractions or signs, `none` for any other text. -/
def sampleJson (s : Text) : Option Json :=
  match readValue (s.length + 1) s with
  | some (v, []) => some v
  | _ => none

/-- A browser whose `optify_history` slot holds `stored` (`none` when the slot
is missing) and whose `JSON.parse` is `sampleJson`. -/
def sampleBrowser (stored : Option Text) : Browser String :=
  { windowDefined := true,
    getItem := fun _ => .ok stored,
    parse := sampleJson }

/-- The text written to the slot for a history of one entry. -/
def storedHistoryText : Text :=
  ("[\x7b\"title\":\"A\",\"url\":\"a\",\"timestamp\":17," ++
    "\"savedFormatted\":\"1 KB\"\x7d]").toList

/-- A platform whose `fetch` answers every request with `response` and whose
`JSON.parse` is `sampleJson`. -/
def jsonPlatform (response : Response String) : Platform Json String :=
  { encodeURIComponent := fun u => u,
    fetch := fun _ => .ok response,
    parse := sampleJson }

/-- The property `value.key` of a value that is not null, `none` when it is
undefined.  In an object the last member of that name counts. -/
def Json.property (value : Json) (key : String) : Option Json :=
  match value with
  | .object members => (members.reverse.find? fun p => p.1 == key).map Prod.snd
  | _ => none

/-- Whether evaluating `meta.meta.title` throws a `TypeError`: `meta` is null,
or `meta.meta` is undefined or null. -/
def readingMetaTitleThrows (value : Json) : Bool :=
  match value with
  | .null => true
  | other =>
    match other.property "meta" with
    | none => true
    | some .null => true
    | some _ => false

/-- The callbacks that `compressPage` passes to `fetchCompressedPage`
(usePageCompression.js lines 56-66), as far as they can throw: `onMetadata`
ends in `addToHistory(meta)`, whose first step reads `meta.meta.title` and
throws a `TypeError` when that cannot be read (the later steps are taken to
return normally); `onContent` only queues a state update. -/
def hookCallbacks : Callbacks Json String :=
  { onMetadata := fun _ value =>
      if readingMetaTitleThrows value then some "TypeError" else none,
    onContent := fun _ _ => none }

/-- Callbacks whose `onContent` throws when it is handed the text `stop`. -/
def throwingOn (stop : Text) : Callbacks (List (Text × Text)) String :=
  { onMetadata := fun _ _ => none,
    onContent := fun _ text => if text = stop then some "stop" else none }

/-! ## The decoder: chunking and round trip -/

theorem Utf8Decoder.run_append (d : Utf8Decoder) (a b : Bytes) :
    d.run (a ++ b) = ((((d.run a).1).run b).1, (d.run a).2 ++ (((d.run a).1).run b).2) := by
  induction a generalizing d with
  | nil => simp [Utf8Decoder.run]
  | cons x xs ih => simp [Utf8Decoder.run, ih, List.append_assoc]

theorem serialize_append (f : Bool) (x y : List Char) :
    serialize f (x ++ y) =
      ((serialize (serialize f x).1 y).1, (serialize f x).2 ++ (serialize (serialize f x).1 y).2) := by
  cases f
  · cases x with
    | nil => simp [serialize]
    | cons c cs =>
      by_cases h : c = byteOrderMark <;> simp [serialize, h]
  · simp [serialize]

theorem TextDecoder.decodeStream_append (d : TextDecoder) (a b : Bytes) :
    d.decodeStream (a ++ b) =
      (((d.decodeStream a).1.decodeStream b).1,
        (d.decodeStream a).2 ++ ((d.decodeStream a).1.decodeStream b).2) := by
  simp [TextDecoder.decodeStream, Utf8Decoder.run_append, serialize_append]

theorem streamText_eq_decodeStream_join (d : TextDecoder) (chunks : List Bytes) :
    streamText d chunks = (d.decodeStream chunks.flatten).2 := by
  induction chunks generalizing d with
  | nil => cases d with | mk dec f => cases f <;> simp [streamText, TextDecoder.decodeStream, Utf8Decoder.run, serialize]
  | cons c cs ih => simp [streamText, ih, TextDecoder.decodeStream_append]

theorem Utf8Decoder.run_cons (d : Utf8Decoder) (b : Nat) (bs : Bytes) :
    d.run (b :: bs) = (((d.handle b).1.run bs).1, (d.handle b).2 ++ ((d.handle b).1.run bs).2) := rfl

theorem Utf8Decoder.handle_ascii (b : Nat) (h : b ≤ 0x7F) :
    Utf8Decoder.init.handle b = (Utf8Decoder.init, [Char.ofNat b]) := by
  simp [Utf8Decoder.handle, Utf8Decoder.lead, Utf8Decoder.init, h]

theorem Utf8Decoder.handle_lead2 (b : Nat) (h : 0xC2 ≤ b ∧ b ≤ 0xDF) :
    Utf8Decoder.init.handle b =
      ({ codePoint := b % 32, bytesSeen := 0, bytesNeeded := 1,
         lowerBoundary := 0x80, upperBoundary := 0xBF }, []) := by
  have h0 : ¬ b ≤ 0x7F := by omega
  simp [Utf8Decoder.handle, Utf8Decoder.lead, Utf8Decoder.init, h, h0]

theorem Utf8Decoder.handle_lead3 (b : Nat) (h : 0xE0 ≤ b ∧ b ≤ 0xEF) :
    Utf8Decoder.init.handle b =
      ({ codePoint := b % 16, bytesSeen := 0, bytesNeeded := 2,
         lowerBoundary := if b = 0xE0 then 0xA0 else 0x80,
         upperBoundary := if b = 0xED then 0x9F else 0xBF }, []) := by
  have h0 : ¬ b ≤ 0x7F := by omega
  have h1 : ¬ (0xC2 ≤ b ∧ b ≤ 0xDF) := by omega
  simp [Utf8Decoder.handle, Utf8Decoder.lead, Utf8Decoder.init, h, h0, h1]

theorem Utf8Decoder.handle_lead4 (b : Nat) (h : 0xF0 ≤ b ∧ b ≤ 0xF4) :
    Utf8Decoder.init.handle b =
      ({ codePoint := b % 8, bytesSeen := 0, bytesNeeded := 3,
         lowerBoundary := if b = 0xF0 then 0x90 else 0x80,
         upperBoundary := if b = 0xF4 then 0x8F else 0xBF }, []) := by
  have h0 : ¬ b ≤ 0x7F := by omega
  have h1 : ¬ (0xC2 ≤ b ∧ b ≤ 0xDF) := by omega
  have h2 : ¬ (0xE0 ≤ b ∧ b ≤ 0xEF) := by omega
  simp [Utf8Decoder.handle, Utf8Decoder.lead, Utf8Decoder.init, h, h0, h1, h2]

theorem Utf8Decoder.handle_continue (d : Utf8Decoder) (b : Nat) (hn : d.bytesNeeded ≠ 0)
    (hr : d.lowerBoundary ≤ b ∧ b ≤ d.upperBoundary) (hs : d.bytesSeen + 1 ≠ d.bytesNeeded) :
    d.handle b =
      ({ codePoint := d.codePoint * 64 + b % 64, bytesSeen := d.bytesSeen + 1,
         bytesNeeded := d.bytesNeeded, lowerBoundary := 0x80, upperBoundary := 0xBF }, []) := by
  have h0 : ¬ (b < d.lowerBoundary ∨ d.upperBoundary < b) := by omega
  unfold Utf8Decoder.handle
  rw [if_neg hn, if_neg h0]
  simp only [ne_eq, hs, not_false_eq_true, if_true]

theorem Utf8Decoder.handle_last (d : Utf8Decoder) (b : Nat) (hn : d.bytesNeeded ≠ 0)
    (hr : d.lowerBoundary ≤ b ∧ b ≤ d.upperBoundary) (hs : d.bytesSeen + 1 = d.bytesNeeded) :
    d.handle b = (Utf8Decoder.init, [Char.ofNat (d.codePoint * 64 + b % 64)]) := by
  have h0 : ¬ (b < d.lowerBoundary ∨ d.upperBoundary < b) := by omega
  unfold Utf8Decoder.handle
  rw [if_neg hn, if_neg h0]
  simp only [ne_eq, hs, not_true_eq_false, if_false]

theorem Utf8Decoder.run_cons_of_handle {d d1 : Utf8Decoder} {b : Nat} {out : List Char}
    (h : d.handle b = (d1, out)) (bs : Bytes) :
    d.run (b :: bs) = ((d1.run bs).1, out ++ (d1.run bs).2) := by
  rw [Utf8Decoder.run_cons, h]

theorem Utf8Decoder.run_encodeChar (c : Char) (rest : Bytes) :
    Utf8Decoder.init.run (utf8EncodeChar c ++ rest) =
      ((Utf8Decoder.init.run rest).1, c :: (Utf8Decoder.init.run rest).2) := by
  have hv : c.toNat < 0xD800 ∨ (0xDFFF < c.toNat ∧ c.toNat < 0x110000) := c.valid
  have hc : Char.ofNat c.toNat = c := Char.ofNat_toNat c
  unfold utf8EncodeChar
  simp only []
  conv => rhs; rw [← hc]
  generalize c.toNat = n at hv ⊢
  clear hc
  by_cases h1 : n ≤ 0x7F
  · rw [if_pos h1]
    simp only [List.cons_append, List.nil_append]
    rw [Utf8Decoder.run_cons_of_handle (Utf8Decoder.handle_ascii n h1)]
    simp
  rw [if_neg h1]
  by_cases h2 : n ≤ 0x7FF
  · rw [if_pos h2]
    simp only [List.cons_append, List.nil_append]
    rw [Utf8Decoder.run_cons_of_handle (Utf8Decoder.handle_lead2 _ (by omega))]
    rw [Utf8Decoder.run_cons_of_handle
      (Utf8Decoder.handle_last _ _ (by simp) (by simp only []; omega) (by simp))]
    have e : (0xC0 + n / 64) % 32 * 64 + (0x80 + n % 64) % 64 = n := by omega
    simp only [e, List.nil_append, List.singleton_append]
  rw [if_neg h2]
  by_cases h3 : n ≤ 0xFFFF
  · rw [if_pos h3]
    simp only [List.cons_append, List.nil_append]
    rw [Utf8Decoder.run_cons_of_handle (Utf8Decoder.handle_lead3 _ (by omega))]
    rw [Utf8Decoder.run_cons_of_handle
      (Utf8Decoder.handle_continue _ _ (by simp) (by simp only []; split_ifs <;> omega) (by simp))]
    rw [Utf8Decoder.run_cons_of_handle
      (Utf8Decoder.handle_last _ _ (by simp) (by simp only []; omega) (by simp))]
    have e : ((0xE0 + n / 4096) % 16 * 64 + (0x80 + n / 64 % 64) % 64) * 64
        + (0x80 + n % 64) % 64 = n := by omega
    simp only [e, List.nil_append, List.singleton_append]
  rw [if_neg h3]
  simp only [List.cons_append, List.nil_append]
  rw [Utf8Decoder.run_cons_of_handle (Utf8Decoder.handle_lead4 _ (by omega))]
  rw [Utf8Decoder.run_cons_of_handle
    (Utf8Decoder.handle_continue _ _ (by simp) (by simp only []; split_ifs <;> omega) (by simp))]
  rw [Utf8Decoder.run_cons_of_handle
    (Utf8Decoder.handle_continue _ _ (by simp) (by simp only []; omega) (by simp))]
  rw [Utf8Decoder.run_cons_of_handle
    (Utf8Decoder.handle_last _ _ (by simp) (by simp only []; omega) (by simp))]
  have e : (((0xF0 + n / 262144) % 8 * 64 + (0x80 + n / 4096 % 64) % 64) * 64
      + (0x80 + n / 64 % 64) % 64) * 64 + (0x80 + n % 64) % 64 = n := by omega
  simp only [e, List.nil_append, List.singleton_append]

theorem Utf8Decoder.run_encode (s : Text) :
    Utf8Decoder.init.run (utf8Encode s) = (Utf8Decoder.init, s) := by
  induction s with
  | nil => rfl
  | cons c cs ih =>
    have : utf8Encode (c :: cs) = utf8EncodeChar c ++ utf8Encode cs := by
      simp [utf8Encode]
    rw [this, Utf8Decoder.run_encodeChar, ih]

theorem serialize_of_head (s : Text) (h : s.head? ≠ some byteOrderMark) :
    (serialize false s).2 = s := by
  cases s with
  | nil => rfl
  | cons c cs =>
    have : c ≠ byteOrderMark := by simpa using h
    simp [serialize, this]

theorem decodeStream_encode (s : Text) (h : s.head? ≠ some byteOrderMark) :
    (TextDecoder.new.decodeStream (utf8Encode s)).2 = s := by
  simp [TextDecoder.decodeStream, TextDecoder.new, Utf8Decoder.run_encode, serialize_of_head s h]

theorem streamText_of_encode (chunks : List Bytes) (s : Text)
    (hc : chunks.flatten = utf8Encode s) (h : s.head? ≠ some byteOrderMark) :
    streamText TextDecoder.new chunks = s := by
  rw [streamText_eq_decodeStream_join, hc, decodeStream_encode s h]

/-! ## The string operations -/

theorem splitFirst_eq_some {sep s a b : Text} (h : splitFirst sep s = some (a, b)) :
    s = a ++ sep ++ b := by
  induction s generalizing a with
  | nil =>
    simp only [splitFirst] at h
    split at h
    · rename_i hp
      simp at h
      obtain ⟨rfl, rfl⟩ := h
      have : sep = [] := by simpa using List.isPrefixOf_iff_prefix.mp hp
      simp [this]
    · simp at h
  | cons c cs ih =>
    simp only [splitFirst] at h
    split at h
    · rename_i hp
      simp only [Option.some.injEq, Prod.mk.injEq] at h
      obtain ⟨rfl, rfl⟩ := h
      obtain ⟨t, ht⟩ := List.isPrefixOf_iff_prefix.mp hp
      rw [← ht]
      simp
    · cases hq : splitFirst sep cs with
      | none => simp [hq] at h
      | some p =>
        obtain ⟨a1, b1⟩ := p
        simp only [hq, Option.map_some', Option.some.injEq, Prod.mk.injEq] at h
        obtain ⟨rfl, rfl⟩ := h
        rw [ih hq]
        simp

theorem includes_eq_isSome (sep s : Text) : includes s sep = (splitFirst sep s).isSome := by
  induction s with
  | nil => cases sep <;> simp [includes, splitFirst]
  | cons c cs ih =>
    simp only [includes, splitFirst, ih]
    split <;> simp_all

theorem splitFirst_isSome_iff (sep s : Text) : (splitFirst sep s).isSome ↔ sep <:+: s := by
  induction s with
  | nil =>
    simp only [splitFirst]
    split
    · rename_i hp
      have : sep = [] := by simpa using List.isPrefixOf_iff_prefix.mp hp
      simp [this]
    · rename_i hp
      have : ¬ sep = [] := by
        intro h; apply hp; simp [h]
      simp [this]
  | cons c cs ih =>
    simp only [splitFirst]
    split
    · rename_i hp
      simp only [Option.isSome_some, true_iff]
      exact (List.isPrefixOf_iff_prefix.mp hp).isInfix
    · rename_i hp
      rw [Option.isSome_map', ih, List.infix_cons_iff]
      constructor
      · intro h; exact Or.inr h
      · rintro (h | h)
        · exact absurd (List.isPrefixOf_iff_prefix.mpr h) hp
        · exact h

theorem splitFuel_ne_nil (sep : Text) (fuel : Nat) (s : Text) : splitFuel sep fuel s ≠ [] := by
  cases fuel with
  | zero => simp [splitFuel]
  | succ n =>
    simp only [splitFuel]
    cases splitFirst sep s with
    | none => simp
    | some p => simp

theorem intercalate_cons_of_ne_nil (sep a : Text) (l : List Text) (h : l ≠ []) :
    sep.intercalate (a :: l) = a ++ sep ++ sep.intercalate l := by
  cases l with
  | nil => exact absurd rfl h
  | cons x xs => simp [List.intercalate, List.intersperse]

theorem intercalate_splitFuel (sep : Text) (fuel : Nat) (s : Text) :
    sep.intercalate (splitFuel sep fuel s) = s := by
  induction fuel generalizing s with
  | zero => simp [splitFuel, List.intercalate]
  | succ n ih =>
    simp only [splitFuel]
    cases hq : splitFirst sep s with
    | none => simp [List.intercalate]
    | some p =>
      obtain ⟨a, b⟩ := p
      simp only []
      rw [intercalate_cons_of_ne_nil _ _ _ (splitFuel_ne_nil sep n b), ih b]
      exact (splitFirst_eq_some hq).symm

theorem split_of_splitFirst {sep s a b : Text} (hsep : sep ≠ [])
    (h : splitFirst sep s = some (a, b)) :
    (split s sep).head? = some a ∧ join ((split s sep).drop 1) sep = b := by
  have hs := splitFirst_eq_some h
  have hlen : s.length ≠ 0 := by
    rw [hs]
    have : sep.length ≠ 0 := by simpa using hsep
    simp only [List.length_append]
    omega
  obtain ⟨n, hn⟩ := Nat.exists_eq_succ_of_ne_zero hlen
  simp only [split, hn, splitFuel, h, List.head?_cons, List.drop_succ_cons, List.drop_zero, join,
    true_and]
  exact intercalate_splitFuel sep n b

theorem splitFirst_append {sep s a b : Text} (h : splitFirst sep s = some (a, b)) (t : Text) :
    splitFirst sep (s ++ t) = some (a, b ++ t) := by
  induction s generalizing a with
  | nil =>
    simp only [splitFirst] at h
    split at h
    · rename_i hp
      have hsep : sep = [] := by simpa using List.isPrefixOf_iff_prefix.mp hp
      simp only [Option.some.injEq, Prod.mk.injEq] at h
      obtain ⟨rfl, rfl⟩ := h
      subst hsep
      cases t <;> simp [splitFirst]
    · simp at h
  | cons c cs ih =>
    simp only [splitFirst] at h
    split at h
    · rename_i hp
      simp only [Option.some.injEq, Prod.mk.injEq] at h
      obtain ⟨rfl, rfl⟩ := h
      have hpre := List.isPrefixOf_iff_prefix.mp hp
      have hp2 : sep.isPrefixOf (c :: cs ++ t) = true :=
        List.isPrefixOf_iff_prefix.mpr (hpre.trans (List.prefix_append _ _))
      have hl : sep.length ≤ (c :: cs).length := hpre.length_le
      simp only [List.cons_append] at hp2 ⊢
      simp only [splitFirst, hp2, if_true, Option.some.injEq, Prod.mk.injEq, true_and]
      rw [← List.cons_append, List.drop_append_of_le_length hl]
    · rename_i hp
      cases hq : splitFirst sep cs with
      | none => simp [hq] at h
      | some p =>
        obtain ⟨a1, b1⟩ := p
        simp only [hq, Option.map_some', Option.some.injEq, Prod.mk.injEq] at h
        obtain ⟨rfl, rfl⟩ := h
        have hcs := splitFirst_eq_some hq
        have hp2 : ¬ sep.isPrefixOf (c :: (cs ++ t)) = true := by
          intro hc
          apply hp
          have h1 := List.isPrefixOf_iff_prefix.mp hc
          have h2 : (c :: cs) <+: (c :: (cs ++ t)) := by
            rw [← List.cons_append]; exact List.prefix_append _ _
          have hl : sep.length ≤ (c :: cs).length := by
            rw [hcs]; simp only [List.length_cons, List.length_append]; omega
          exact List.isPrefixOf_iff_prefix.mpr (List.prefix_of_prefix_length_le h1 h2 hl)
        show splitFirst sep (c :: (cs ++ t)) = some (c :: a1, b1 ++ t)
        rw [splitFirst, if_neg hp2, ih hq]
        rfl

theorem separator_ne_nil : separator ≠ [] := by decide

theorem splitFirst_minimal {sep s a b : Text} (hsep : sep ≠ [])
    (h : splitFirst sep s = some (a, b)) (a1 b1 : Text) (hs : s = a1 ++ sep ++ b1) :
    a.length ≤ a1.length := by
  induction s generalizing a a1 with
  | nil =>
    have := congrArg List.length hs
    have hl : sep.length ≠ 0 := by simpa using hsep
    simp only [List.length_nil, List.length_append] at this
    omega
  | cons c cs ih =>
    simp only [splitFirst] at h
    split at h
    · simp only [Option.some.injEq, Prod.mk.injEq] at h
      obtain ⟨rfl, rfl⟩ := h
      simp
    · rename_i hp
      cases hq : splitFirst sep cs with
      | none => simp [hq] at h
      | some p =>
        obtain ⟨a2, b2⟩ := p
        simp only [hq, Option.map_some', Option.some.injEq, Prod.mk.injEq] at h
        obtain ⟨rfl, rfl⟩ := h
        cases a1 with
        | nil =>
          exfalso
          apply hp
          apply List.isPrefixOf_iff_prefix.mpr
          rw [hs]
          simp
        | cons x xs =>
          simp only [List.cons_append, List.cons.injEq] at hs
          have := ih hq xs hs.2
          simp only [List.length_cons]
          omega

theorem splitFirst_of_minimal {sep s a b : Text} (hsep : sep ≠ []) (hs : s = a ++ sep ++ b)
    (hmin : ∀ a1 b1, s = a1 ++ sep ++ b1 → a.length ≤ a1.length) :
    splitFirst sep s = some (a, b) := by
  have hin : sep <:+: s := ⟨a, b, hs.symm⟩
  have hsome := (splitFirst_isSome_iff sep s).mpr hin
  obtain ⟨⟨a0, b0⟩, h0⟩ := Option.isSome_iff_exists.mp hsome
  have hs0 := splitFirst_eq_some h0
  have h1 := splitFirst_minimal hsep h0 a b hs
  have h2 := hmin a0 b0 hs0
  have hlen : a0.length = a.length := by omega
  have heq : a0 ++ (sep ++ b0) = a ++ (sep ++ b) := by
    rw [← List.append_assoc, ← List.append_assoc, ← hs0, ← hs]
  have ha : a0 = a := (List.append_inj heq hlen).1
  have hb : sep ++ b0 = sep ++ b := (List.append_inj heq hlen).2
  rw [h0, ha, List.append_cancel_left hb]

/-- A text without separator that closes with a brace, followed by the
separator: the first separator occurrence is the one that follows it. -/
theorem splitFirst_header (J B : Text) (hclose : J.getLast? = some '}')
    (hno : ¬ separator <:+: J) :
    splitFirst separator (J ++ separator ++ B) = some (J, B) := by
  apply splitFirst_of_minimal separator_ne_nil rfl
  intro a1 b1 hs
  by_contra hlt
  have hlt : a1.length < J.length := by omega
  -- a1 is a proper prefix of J
  have hpre : a1 <+: J := by
    have h1 : a1 <+: J ++ separator ++ B := ⟨separator ++ b1, by rw [hs]; simp⟩
    have h2 : J <+: J ++ separator ++ B := ⟨separator ++ B, by simp⟩
    exact List.prefix_of_prefix_length_le h1 h2 (by omega)
  obtain ⟨k, hk⟩ := hpre
  subst hk
  have hk0 : k ≠ [] := by
    intro h; subst h; simp at hlt
  have hs2 : k ++ (separator ++ B) = separator ++ b1 := by
    have := hs
    simp only [List.append_assoc] at this
    exact List.append_cancel_left this
  by_cases hkl : separator.length ≤ k.length
  · apply hno
    have h1 : separator <+: k ++ (separator ++ B) := ⟨b1, hs2.symm⟩
    have h2 : k <+: k ++ (separator ++ B) := List.prefix_append _ _
    have := List.prefix_of_prefix_length_le h1 h2 hkl
    exact (this.isInfix).trans (List.suffix_append a1 k).isInfix
  · have h1 : separator <+: k ++ (separator ++ B) := ⟨b1, hs2.symm⟩
    have h2 : k <+: k ++ (separator ++ B) := List.prefix_append _ _
    have hks : k <+: separator := List.prefix_of_prefix_length_le h2 h1 (by omega)
    have hlast : k.getLast? = some '}' := by
      rw [← hclose, List.getLast?_append_of_ne_nil _ hk0]
    have hmem : '}' ∈ k := List.mem_of_getLast?_eq_some hlast
    have : '}' ∈ separator := hks.subset hmem
    revert this
    decide

theorem streamText_eq_utf8Decode_of_complete (chunks : List Bytes)
    (h : (TextDecoder.new.decodeStream chunks.flatten).1.decoder.bytesNeeded = 0) :
    streamText TextDecoder.new chunks = utf8Decode chunks.flatten := by
  have hflush : (TextDecoder.new.decodeStream chunks.flatten).1.flush = [] := by
    unfold TextDecoder.flush
    rw [if_pos h]
    cases (TextDecoder.new.decodeStream chunks.flatten).1.bomSeen <;> rfl
  rw [streamText_eq_decodeStream_join]
  unfold utf8Decode
  simp only [hflush, List.append_nil]

theorem splitFirst_before_no_sep {sep s a b : Text} (hsep : sep ≠ [])
    (h : splitFirst sep s = some (a, b)) : ¬ sep <:+: a := by
  rintro ⟨x, y, hxy⟩
  have hs := splitFirst_eq_some h
  have hmin := splitFirst_minimal hsep h x (y ++ sep ++ b) (by
    rw [hs, ← hxy]; simp [List.append_assoc])
  have hl : sep.length ≠ 0 := by simpa using hsep
  have := congrArg List.length hxy
  simp only [List.length_append] at this
  omega

theorem splitFuel_parts_no_sep (sep : Text) (hsep : sep ≠ []) (fuel : Nat) (s : Text)
    (hfuel : s.length ≤ fuel) : ∀ p ∈ splitFuel sep fuel s, ¬ sep <:+: p := by
  induction fuel generalizing s with
  | zero =>
    intro p hp
    have hs : s = [] := List.length_eq_zero.mp (Nat.le_zero.mp hfuel)
    subst hs
    simp only [splitFuel, List.mem_singleton] at hp
    subst hp
    intro hin
    exact hsep (List.eq_nil_of_infix_nil hin)
  | succ n ih =>
    intro p hp
    simp only [splitFuel] at hp
    cases hq : splitFirst sep s with
    | none =>
      rw [hq] at hp
      simp only [List.mem_singleton] at hp
      subst hp
      intro hin
      have := (splitFirst_isSome_iff sep p).mpr hin
      rw [hq] at this
      exact absurd this (by simp)
    | some q =>
      obtain ⟨a, b⟩ := q
      rw [hq] at hp
      simp only [List.mem_cons] at hp
      rcases hp with rfl | hp
      · exact splitFirst_before_no_sep hsep hq
      · apply ih b _ p hp
        have hs := congrArg List.length (splitFirst_eq_some hq)
        have hl : sep.length ≠ 0 := by simpa using hsep
        simp only [List.length_append] at hs
        omega

/-- The pieces of `split` hold no further occurrence of the separator: the
fuel of `split` is enough to split at every occurrence. -/
theorem split_parts_no_sep (s sep : Text) (hsep : sep ≠ []) :
    ∀ p ∈ split s sep, ¬ sep <:+: p :=
  splitFuel_parts_no_sep sep hsep s.length s (Nat.le_refl _)

/-- The pieces of `split`, joined by the separator, give the text back. -/
theorem join_split (s sep : Text) : join (split s sep) sep = s :=
  intercalate_splitFuel sep s.length s

/-! ## The read loop -/

theorem Loop.iterate_awaiting {α ε : Type} (parse : Text → Option α) (cb : Callbacks α ε)
    (st : Loop α) (value : Bytes) (hm : st.metadataReceived = false)
    (hparse : ∀ a b, splitFirst separator (st.buffer ++ (st.decoder.decodeStream value).2) =
      some (a, b) → parse a = none) :
    st.iterate parse cb value =
      .ok { decoder := (st.decoder.decodeStream value).1,
            buffer := st.buffer ++ (st.decoder.decodeStream value).2,
            metadataReceived := false, calls := st.calls } := by
  unfold Loop.iterate
  simp only [hm, Bool.not_false, Bool.true_and, includes_eq_isSome]
  cases hq : splitFirst separator (st.buffer ++ (st.decoder.decodeStream value).2) with
  | none => simp
  | some p =>
    obtain ⟨a, b⟩ := p
    obtain ⟨hhead, _⟩ := split_of_splitFirst separator_ne_nil hq
    simp only [Option.isSome_some, if_true, hhead, Option.some_bind, hparse a b hq]

theorem Loop.iterate_inv {α ε : Type} (parse : Text → Option α) (cb : Callbacks α ε)
    (hcb : cb.ReturnNormally) (text : Text) (st : Loop α) (value : Bytes)
    (h : Loop.Inv parse text st) :
    ∃ next, st.iterate parse cb value = .ok next ∧
      next.decoder = (st.decoder.decodeStream value).1 ∧
      Loop.Inv parse (text ++ (st.decoder.decodeStream value).2) next := by
  rcases h with ⟨hm, hcalls, hbuf, _⟩ | ⟨hm, hbuf, m, cs, a, hsplit, hpa, hcalls⟩
  · -- the header has not been accepted yet
    cases hq : splitFirst separator (text ++ (st.decoder.decodeStream value).2) with
    | none =>
      refine ⟨_, Loop.iterate_awaiting parse cb st value hm ?_, rfl, ?_⟩
      · intro a b hab
        rw [hbuf, hq] at hab
        exact absurd hab (by simp)
      · left
        refine ⟨rfl, hcalls, by simp [hbuf], ?_⟩
        intro a b hab
        rw [hq] at hab
        exact absurd hab (by simp)
    | some p =>
      obtain ⟨a, b⟩ := p
      cases hpm : parse a with
      | none =>
        refine ⟨_, Loop.iterate_awaiting parse cb st value hm ?_, rfl, ?_⟩
        · intro a1 b1 hab
          rw [hbuf, hq] at hab
          simp only [Option.some.injEq, Prod.mk.injEq] at hab
          rw [← hab.1]
          exact hpm
        · left
          refine ⟨rfl, hcalls, by simp [hbuf], ?_⟩
          intro a1 b1 hab
          rw [hq] at hab
          simp only [Option.some.injEq, Prod.mk.injEq] at hab
          rw [← hab.1]
          exact hpm
      | some metadata =>
        obtain ⟨hhead, hjoin⟩ := split_of_splitFirst separator_ne_nil hq
        unfold Loop.iterate
        simp only [hm, hbuf, hcalls, Bool.not_false, Bool.true_and, includes_eq_isSome, hq,
          Option.isSome_some, if_true, hhead, hjoin, Option.some_bind, hpm, hcb.1, hcb.2,
          List.nil_append]
        by_cases hb : b = []
        · refine ⟨_, by simp only [hb, ne_eq, not_true_eq_false, if_false]; rfl, rfl, ?_⟩
          right
          exact ⟨rfl, rfl, metadata, [], a, by simp [hq, hb], hpm, by simp⟩
        · refine ⟨_, by simp only [hb, ne_eq, not_false_eq_true, if_true]; rfl, rfl, ?_⟩
          right
          exact ⟨rfl, rfl, metadata, [b], a, by simp [hq], hpm, by simp⟩
  · -- the header has been accepted: the fragment is passed on
    unfold Loop.iterate
    simp only [hm, hbuf, hcalls, Bool.not_true, Bool.false_and, Bool.false_eq_true, if_false,
      if_true, List.nil_append, hcb.2]
    refine ⟨_, rfl, rfl, ?_⟩
    right
    refine ⟨rfl, rfl, m, cs ++ [(st.decoder.decodeStream value).2], a, ?_, hpa, ?_⟩
    · simpa using splitFirst_append hsplit _
    · simp

theorem Loop.init_inv {α : Type} (parse : Text → Option α) :
    Loop.Inv parse [] (Loop.init α) := by
  left
  refine ⟨rfl, rfl, rfl, ?_⟩
  intro a b h
  revert h
  simp [splitFirst, separator]

theorem Loop.iterateAll_awaiting {α ε : Type} (parse : Text → Option α) (cb : Callbacks α ε)
    (chunks : List Bytes) (st : Loop α) (hm : st.metadataReceived = false)
    (hparse : ∀ a b, splitFirst separator (st.buffer ++ streamText st.decoder chunks) =
      some (a, b) → parse a = none) :
    ∃ next, st.iterateAll parse cb chunks = .ok next ∧ next.metadataReceived = false ∧
      next.calls = st.calls ∧ next.buffer = st.buffer ++ streamText st.decoder chunks := by
  induction chunks generalizing st with
  | nil => exact ⟨st, rfl, hm, rfl, by simp [streamText]⟩
  | cons c cs ih =>
    have hstep := Loop.iterate_awaiting parse cb st c hm (by
      intro a b hab
      have := splitFirst_append hab (streamText (st.decoder.decodeStream c).1 cs)
      rw [List.append_assoc] at this
      exact hparse a _ this)
    obtain ⟨next, hnext, hm1, hc1, hb1⟩ := ih
      { decoder := (st.decoder.decodeStream c).1,
        buffer := st.buffer ++ (st.decoder.decodeStream c).2,
        metadataReceived := false, calls := st.calls } rfl (by
      intro a b hab
      have hab2 : splitFirst separator (st.buffer ++ streamText st.decoder (c :: cs)) =
          some (a, b) := by
        simpa [streamText, List.append_assoc] using hab
      exact hparse a b hab2)
    refine ⟨next, ?_, hm1, hc1, ?_⟩
    · simp only [Loop.iterateAll, hstep]
      exact hnext
    · rw [hb1]
      simp [streamText, List.append_assoc]

theorem Loop.iterateAll_inv {α ε : Type} (parse : Text → Option α) (cb : Callbacks α ε)
    (hcb : cb.ReturnNormally) (chunks : List Bytes) (text : Text) (st : Loop α)
    (h : Loop.Inv parse text st) :
    ∃ next, st.iterateAll parse cb chunks = .ok next ∧
      Loop.Inv parse (text ++ streamText st.decoder chunks) next := by
  induction chunks generalizing text st with
  | nil => exact ⟨st, rfl, by simpa [streamText] using h⟩
  | cons c cs ih =>
    obtain ⟨mid, hmid, hdec, hinv⟩ := Loop.iterate_inv parse cb hcb text st c h
    obtain ⟨next, hnext, hinv2⟩ := ih _ _ hinv
    refine ⟨next, ?_, ?_⟩
    · simp only [Loop.iterateAll, hmid]
      exact hnext
    · rw [hdec] at hinv2
      simpa [streamText, List.append_assoc] using hinv2

theorem Loop.finish_of_inv {α ε : Type} (parse : Text → Option α) (cb : Callbacks α ε)
    (text : Text) (st : Loop α) (h : Loop.Inv parse text st) :
    st.finish cb = { calls := st.calls, result := .ok () } := by
  unfold Loop.finish
  rcases h with ⟨hm, _, _, _⟩ | ⟨_, hbuf, _⟩
  · simp [hm]
  · simp [hbuf]

theorem Loop.finish_awaiting {α ε : Type} (cb : Callbacks α ε) (st : Loop α)
    (hm : st.metadataReceived = false) :
    st.finish cb = { calls := st.calls, result := .ok () } := by
  unfold Loop.finish
  simp [hm]

theorem Loop.readAll_ok {α ε : Type} (parse : Text → Option α) (cb : Callbacks α ε)
    (st : Loop α) (chunks : List Bytes) :
    Loop.readAll parse cb st (chunks.map Except.ok) =
      match st.iterateAll parse cb chunks with
      | .ok next => next.finish cb
      | .error outcome => outcome := by
  induction chunks generalizing st with
  | nil => rfl
  | cons c cs ih =>
    simp only [List.map_cons, Loop.readAll, Loop.iterateAll]
    cases st.iterate parse cb c with
    | error o => rfl
    | ok next => exact ih next

theorem Loop.readAll_error {α ε : Type} (parse : Text → Option α) (cb : Callbacks α ε)
    (st : Loop α) (chunks : List Bytes) (e : ε) (rest : List (Except ε Bytes)) :
    Loop.readAll parse cb st (chunks.map Except.ok ++ Except.error e :: rest) =
      match st.iterateAll parse cb chunks with
      | .ok next => { calls := next.calls, result := .error (.cause e) }
      | .error outcome => outcome := by
  induction chunks generalizing st with
  | nil => rfl
  | cons c cs ih =>
    simp only [List.map_cons, List.cons_append, Loop.readAll, Loop.iterateAll]
    cases st.iterate parse cb c with
    | error o => rfl
    | ok next => exact ih next

/-- What the loop has dispatched once all the chunks have been read, in terms
of the text of the stream, for callbacks that return normally. -/
theorem Loop.inv_final {α ε : Type} (parse : Text → Option α) (cb : Callbacks α ε)
    (hcb : cb.ReturnNormally) (chunks : List Bytes) :
    ∃ next, (Loop.init α).iterateAll parse cb chunks = .ok next ∧
      Loop.Inv parse (streamText TextDecoder.new chunks) next := by
  simpa [Loop.init] using
    Loop.iterateAll_inv parse cb hcb chunks [] (Loop.init α) (Loop.init_inv parse)

/-! ## What a stream dispatches -/

theorem fetchCompressedPage_of_chunks {α ε : Type} (env : Platform α ε) (cb : Callbacks α ε)
    (url : String) (response : Response ε) (chunks : List Bytes)
    (hfetch : env.fetch ("/api/process?url=" ++ env.encodeURIComponent url) = .ok response)
    (hok : response.ok = true) (hbody : response.body = chunks.map Except.ok) :
    fetchCompressedPage env cb url =
      match (Loop.init α).iterateAll env.parse cb chunks with
      | .ok next => next.finish cb
      | .error outcome => outcome := by
  unfold fetchCompressedPage
  simp only [hfetch, hok, hbody, Bool.not_true, Bool.false_eq_true, if_false, Loop.readAll_ok]

theorem fetchCompressedPage_of_returnNormally {α ε : Type} (env : Platform α ε)
    (cb : Callbacks α ε) (hcb : cb.ReturnNormally) (url : String) (response : Response ε)
    (chunks : List Bytes)
    (hfetch : env.fetch ("/api/process?url=" ++ env.encodeURIComponent url) = .ok response)
    (hok : response.ok = true) (hbody : response.body = chunks.map Except.ok) :
    ∃ next, (Loop.init α).iterateAll env.parse cb chunks = .ok next ∧
      Loop.Inv env.parse (streamText TextDecoder.new chunks) next ∧
      fetchCompressedPage env cb url = { calls := next.calls, result := .ok () } := by
  obtain ⟨next, hnext, hinv⟩ := Loop.inv_final env.parse cb hcb chunks
  refine ⟨next, hnext, hinv, ?_⟩
  rw [fetchCompressedPage_of_chunks env cb url response chunks hfetch hok hbody, hnext]
  exact Loop.finish_of_inv env.parse cb _ next hinv

theorem fetchCompressedPage_of_parse_none {α ε : Type} (env : Platform α ε)
    (cb : Callbacks α ε) (url : String) (response : Response ε) (chunks : List Bytes)
    (hfetch : env.fetch ("/api/process?url=" ++ env.encodeURIComponent url) = .ok response)
    (hok : response.ok = true) (hbody : response.body = chunks.map Except.ok)
    (h : ∀ a b, splitFirst separator (streamText TextDecoder.new chunks) = some (a, b) →
      env.parse a = none) :
    fetchCompressedPage env cb url = { calls := [], result := .ok () } := by
  obtain ⟨next, hnext, hm, hc, _⟩ :=
    Loop.iterateAll_awaiting env.parse cb chunks (Loop.init α) rfl (by
      simpa [Loop.init] using h)
  rw [fetchCompressedPage_of_chunks env cb url response chunks hfetch hok hbody, hnext]
  simp only []
  rw [Loop.finish_awaiting cb next hm, hc]
  rfl

theorem Loop.calls_of_parse_some {α : Type} (parse : Text → Option α) (text : Text)
    (next : Loop α) (hinv : Loop.Inv parse text next) (a b : Text) (m : α)
    (hs : splitFirst separator text = some (a, b)) (hp : parse a = some m) :
    ∃ cs : List Text, next.calls = Call.onMetadata m :: cs.map Call.onContent ∧
      cs.flatten = b := by
  rcases hinv with ⟨_, _, _, hn⟩ | ⟨_, _, m1, cs, a1, hs1, hp1, hc⟩
  · rw [hn a b hs] at hp
    exact absurd hp (by simp)
  · rw [hs] at hs1
    simp only [Option.some.injEq, Prod.mk.injEq] at hs1
    obtain ⟨ha, hb⟩ := hs1
    subst ha
    rw [hp] at hp1
    simp only [Option.some.injEq] at hp1
    subst hp1
    exact ⟨cs, hc, hb.symm⟩

/-! ## The claims on fetchCompressedPage -/

/-- Claim C1 (round trip), as amended: for callbacks that return normally.
Let `J` be the JSON text of a header object `H` (it opens and closes with a
brace, `JSON.parse` reads it back as `H`) that does not contain the separator,
and let `B` be any body text.  However the UTF-8 bytes of `J ++ separator ++ B`
are cut into chunks, a successful response makes exactly one `onMetadata` call,
with `H`, followed by `onContent` calls whose arguments concatenate to `B`, and
the promise resolves. -/
theorem fetchCompressedPage_round_trip {α ε : Type} (env : Platform α ε)
    (cb : Callbacks α ε) (url : String)
    (response : Response ε) (chunks : List Bytes) (J B : Text) (H : α)
    (hcb : cb.ReturnNormally)
    (hfetch : env.fetch ("/api/process?url=" ++ env.encodeURIComponent url) = .ok response)
    (hok : response.ok = true) (hbody : response.body = chunks.map Except.ok)
    (hobject : ∃ inner : Text, J = Char.ofNat 0x7B :: inner ++ [Char.ofNat 0x7D])
    (hparse : env.parse J = some H)
    (hnosep : ¬ separator <:+: J)
    (hbytes : chunks.flatten = utf8Encode (J ++ separator ++ B)) :
    ∃ cs : List Text,
      (fetchCompressedPage env cb url).calls = Call.onMetadata H :: cs.map Call.onContent ∧
      cs.flatten = B ∧
      (fetchCompressedPage env cb url).result = .ok () := by
  obtain ⟨inner, hJ⟩ := hobject
  have hhead : (J ++ separator ++ B).head? ≠ some byteOrderMark := by
    rw [hJ]
    simp only [List.cons_append, List.head?_cons, ne_eq, Option.some.injEq]
    decide
  have hclose : J.getLast? = some '}' := by
    rw [hJ, List.getLast?_append_of_ne_nil _ (by simp)]
    rfl
  have htext := streamText_of_encode chunks _ hbytes hhead
  have hsplit := splitFirst_header J B hclose hnosep
  rw [← htext] at hsplit
  obtain ⟨next, _, hinv, hout⟩ :=
    fetchCompressedPage_of_returnNormally env cb hcb url response chunks hfetch hok hbody
  obtain ⟨cs, hc, hb⟩ := Loop.calls_of_parse_some env.parse _ next hinv J B H hsplit hparse
  rw [hout]
  exact ⟨cs, hc, hb, rfl⟩

theorem fetchCompressedPage_round_trip_witness :
    (Callbacks.quiet (List (Text × Text)) String).ReturnNormally ∧
    sampleParse sampleHeader = some [("url".toList, "café".toList)] ∧
    ¬ separator <:+: sampleHeader ∧
    sampleChunks.flatten = utf8Encode (sampleHeader ++ separator ++ sampleBody) ∧
    (∃ cs : List Text,
      (fetchCompressedPage (samplePlatform (okResponse sampleChunks))
          (Callbacks.quiet _ _) "u").calls =
        Call.onMetadata [("url".toList, "café".toList)] :: cs.map Call.onContent ∧
      cs.flatten = sampleBody ∧
      (fetchCompressedPage (samplePlatform (okResponse sampleChunks))
          (Callbacks.quiet _ _) "u").result = .ok ()) :=
  ⟨⟨fun _ _ => rfl, fun _ _ => rfl⟩, by decide, by decide, by decide,
    fetchCompressedPage_round_trip (samplePlatform (okResponse sampleChunks))
      (Callbacks.quiet _ _) "u"
      (okResponse sampleChunks) sampleChunks sampleHeader sampleBody
      [("url".toList, "café".toList)] ⟨fun _ _ => rfl, fun _ _ => rfl⟩ rfl rfl rfl
      ⟨"\"url\":\"café\"".toList, by decide⟩ (by decide) (by decide) (by decide)⟩

/-- Claim C1 as stated fails when a callback throws.  The header is
`sampleHeader` (an object with the one member `url`), the body is `abc`, cut
after `a` and after `b`.  With an `onContent` that throws on `b`, the exception
ends the operation: the promise rejects and `c` is never dispatched.  With the
callbacks of `compressPage`, `onMetadata` throws on this header, the exception
is caught in the loop, and `onMetadata` is called again on each later chunk
while no content is dispatched at all. -/
theorem fetchCompressedPage_round_trip_counterexample :
    sampleParse sampleHeader = some [("url".toList, "café".toList)] ∧
    fetchCompressedPage
        (samplePlatform (okResponse
          [utf8Encode (sampleHeader ++ separator ++ "a".toList), utf8Encode "b".toList,
            utf8Encode "c".toList]))
        (throwingOn "b".toList) "u" =
      { calls := [Call.onMetadata [("url".toList, "café".toList)],
          Call.onContent "a".toList, Call.onContent "b".toList],
        result := .error (.cause "stop") } ∧
    sampleJson sampleHeader = some (Json.object [("url", Json.string "café")]) ∧
    fetchCompressedPage
        (jsonPlatform (okResponse
          [utf8Encode (sampleHeader ++ separator ++ "a".toList), utf8Encode "b".toList,
            utf8Encode "c".toList]))
        hookCallbacks "u" =
      { calls := [Call.onMetadata (Json.object [("url", Json.string "café")]),
          Call.onMetadata (Json.object [("url", Json.string "café")]),
          Call.onMetadata (Json.object [("url", Json.string "café")])],
        result := .ok () } ∧
    ¬ ∃ cs : List Text,
      (fetchCompressedPage
        (jsonPlatform (okResponse
          [utf8Encode (sampleHeader ++ separator ++ "a".toList), utf8Encode "b".toList,
            utf8Encode "c".toList]))
        hookCallbacks "u").calls =
        Call.onMetadata (Json.object [("url", Json.string "café")]) ::
          cs.map Call.onContent ∧
      cs.flatten = "abc".toList := by
  refine ⟨by decide, rfl, rfl, rfl, ?_⟩
  rintro ⟨cs, hcalls, _⟩
  have hrun : (fetchCompressedPage
      (jsonPlatform (okResponse
        [utf8Encode (sampleHeader ++ separator ++ "a".toList), utf8Encode "b".toList,
          utf8Encode "c".toList]))
      hookCallbacks "u").calls =
      [Call.onMetadata (Json.object [("url", Json.string "café")]),
        Call.onMetadata (Json.object [("url", Json.string "café")]),
        Call.onMetadata (Json.object [("url", Json.string "café")])] := rfl
  rw [hrun] at hcalls
  cases cs with
  | nil => simp at hcalls
  | cons c rest => simp at hcalls

/-- For callbacks that return normally, on a successful response the trace of
calls is empty, or it is one `onMetadata` call followed by `onContent` calls
only, and the arguments of these, concatenated in call order, are the text of
the stream after the first separator. -/
theorem fetchCompressedPage_callback_order {α ε : Type} (env : Platform α ε)
    (cb : Callbacks α ε) (url : String)
    (response : Response ε) (chunks : List Bytes) (hcb : cb.ReturnNormally)
    (hfetch : env.fetch ("/api/process?url=" ++ env.encodeURIComponent url) = .ok response)
    (hok : response.ok = true) (hbody : response.body = chunks.map Except.ok) :
    (fetchCompressedPage env cb url).calls = [] ∨
    ∃ (m : α) (cs : List Text) (header : Text),
      (fetchCompressedPage env cb url).calls = Call.onMetadata m :: cs.map Call.onContent ∧
      streamText TextDecoder.new chunks = header ++ separator ++ cs.flatten ∧
      (∀ a b, streamText TextDecoder.new chunks = a ++ separator ++ b →
        header.length ≤ a.length) := by
  obtain ⟨next, _, hinv, hout⟩ :=
    fetchCompressedPage_of_returnNormally env cb hcb url response chunks hfetch hok hbody
  rw [hout]
  rcases hinv with ⟨_, hc, _, _⟩ | ⟨_, _, m, cs, a, hs, _, hc⟩
  · exact Or.inl hc
  · exact Or.inr ⟨m, cs, a, hc, splitFirst_eq_some hs,
      fun a1 b1 h => splitFirst_minimal separator_ne_nil hs a1 b1 h⟩

/-- Claim C2 fails on the code.  The header `\x7b\x7d` and the separator arrive
in a first chunk, `x` in a second one, and the callbacks are those of
`compressPage`, whose `onMetadata` throws on a header without `meta`.  The
exception is caught by the `catch` that reports a parse failure, before
`metadataReceived` is set: the second chunk makes a second `onMetadata` call,
no `onContent` call is made, and the promise resolves; with callbacks that
return normally the same chunks give one `onMetadata` call and `x` as content.
In the same way an `onContent` that throws on the text that follows the header
leaves the buffer uncleared, and the next chunk passes the header, the
separator and all the content to `onContent`. -/
theorem fetchCompressedPage_repeated_metadata_call :
    sampleJson "\x7b\x7d".toList = some (Json.object []) ∧
    hookCallbacks.onMetadata [] (Json.object []) = some "TypeError" ∧
    fetchCompressedPage
        (jsonPlatform (okResponse
          [utf8Encode ("\x7b\x7d".toList ++ separator), utf8Encode "x".toList]))
        hookCallbacks "u" =
      { calls := [Call.onMetadata (Json.object []), Call.onMetadata (Json.object [])],
        result := .ok () } ∧
    fetchCompressedPage
        (jsonPlatform (okResponse
          [utf8Encode ("\x7b\x7d".toList ++ separator), utf8Encode "x".toList]))
        (Callbacks.quiet _ _) "u" =
      { calls := [Call.onMetadata (Json.object []), Call.onContent "x".toList],
        result := .ok () } ∧
    fetchCompressedPage
        (samplePlatform (okResponse
          [utf8Encode ("\x7b\x7d".toList ++ separator ++ "a".toList), utf8Encode "b".toList]))
        (throwingOn "a".toList) "u" =
      { calls := [Call.onMetadata [], Call.onContent "a".toList,
          Call.onContent ("\x7b\x7d".toList ++ separator ++ "ab".toList)],
        result := .ok () } :=
  ⟨rfl, rfl, rfl, rfl, rfl⟩

/-- Claim C3, as amended.  When the buffered text holds the separator and the
text `M` before its first occurrence does not parse, the iteration dispatches
nothing and keeps the whole buffered text: the loop goes on awaiting with that
buffer.  Hence, when the first chunk decodes to a malformed header `M` followed
by the separator, whatever chunks follow, no callback is ever made and the
promise resolves.  This holds whatever the callbacks do. -/
theorem fetchCompressedPage_malformed_header_kept {α ε : Type} (env : Platform α ε)
    (cb : Callbacks α ε) :
    (∀ (st : Loop α) (value : Bytes) (M rest : Text),
      st.metadataReceived = false →
      st.buffer ++ (st.decoder.decodeStream value).2 = M ++ separator ++ rest →
      (∀ a b, M ++ separator ++ rest = a ++ separator ++ b → M.length ≤ a.length) →
      env.parse M = none →
      st.iterate env.parse cb value =
        .ok { decoder := (st.decoder.decodeStream value).1,
              buffer := M ++ separator ++ rest,
              metadataReceived := false,
              calls := st.calls }) ∧
    (∀ (url : String) (response : Response ε) (first : Bytes) (later : List Bytes)
        (M : Text),
      env.fetch ("/api/process?url=" ++ env.encodeURIComponent url) = .ok response →
      response.ok = true →
      response.body = (first :: later).map Except.ok →
      (TextDecoder.new.decodeStream first).2 = M ++ separator →
      (∀ a b, M ++ separator = a ++ separator ++ b → M.length ≤ a.length) →
      env.parse M = none →
      fetchCompressedPage env cb url = { calls := [], result := .ok () }) := by
  constructor
  · intro st value M rest hm htext hfirst hparse
    have hs := splitFirst_of_minimal separator_ne_nil rfl hfirst
    rw [Loop.iterate_awaiting env.parse cb st value hm (by
      intro a b hab
      rw [htext, hs] at hab
      simp only [Option.some.injEq, Prod.mk.injEq] at hab
      rw [← hab.1]
      exact hparse), htext]
  · intro url response first later M hfetch hok hbody htext hfirst hparse
    have hs0 : splitFirst separator (M ++ separator) = some (M, []) := by
      apply splitFirst_of_minimal separator_ne_nil (by simp)
      intro a1 b1 h
      exact hfirst a1 b1 h
    apply fetchCompressedPage_of_parse_none env cb url response (first :: later) hfetch hok hbody
    intro a b hab
    have hst : streamText TextDecoder.new (first :: later) =
        M ++ separator ++ streamText (TextDecoder.new.decodeStream first).1 later := by
      simp [streamText, htext]
    rw [hst, splitFirst_append hs0] at hab
    simp only [Option.some.injEq, Prod.mk.injEq] at hab
    rw [← hab.1]
    exact hparse

theorem fetchCompressedPage_malformed_header_kept_witness :
    (TextDecoder.new.decodeStream (utf8Encode (malformedHeader ++ separator))).2 =
      malformedHeader ++ separator ∧
    sampleParse malformedHeader = none ∧
    sampleParse "\x7b\x7d".toList = some [] ∧
    (Loop.init (List (Text × Text))).iterate sampleParse (Callbacks.quiet _ String)
        (utf8Encode (malformedHeader ++ separator)) =
      .ok { decoder :=
              (TextDecoder.new.decodeStream (utf8Encode (malformedHeader ++ separator))).1,
            buffer := malformedHeader ++ separator ++ [],
            metadataReceived := false,
            calls := [] } ∧
    fetchCompressedPage
        (samplePlatform (okResponse [utf8Encode (malformedHeader ++ separator),
          utf8Encode ("\x7b\x7d".toList ++ separator ++ "T".toList)]))
        (Callbacks.quiet _ _) "u" =
      { calls := [], result := .ok () } :=
  ⟨by decide, by decide, by decide,
    (fetchCompressedPage_malformed_header_kept
      (samplePlatform (okResponse [utf8Encode (malformedHeader ++ separator),
          utf8Encode ("\x7b\x7d".toList ++ separator ++ "T".toList)]))
      (Callbacks.quiet _ _)).1
      (Loop.init (List (Text × Text))) (utf8Encode (malformedHeader ++ separator))
      malformedHeader [] rfl (by decide)
      (fun a b h => splitFirst_minimal separator_ne_nil
        (show splitFirst separator (malformedHeader ++ separator ++ []) =
          some (malformedHeader, []) by decide) a b h)
      (by decide),
    (fetchCompressedPage_malformed_header_kept
      (samplePlatform (okResponse [utf8Encode (malformedHeader ++ separator),
          utf8Encode ("\x7b\x7d".toList ++ separator ++ "T".toList)]))
      (Callbacks.quiet _ _)).2 "u"
      (okResponse [utf8Encode (malformedHeader ++ separator),
          utf8Encode ("\x7b\x7d".toList ++ separator ++ "T".toList)])
      (utf8Encode (malformedHeader ++ separator))
      [utf8Encode ("\x7b\x7d".toList ++ separator ++ "T".toList)]
      malformedHeader rfl rfl rfl (by decide)
      (fun a b h => splitFirst_minimal separator_ne_nil
        (show splitFirst separator (malformedHeader ++ separator) = some (malformedHeader, [])
          by decide) a b h)
      (by decide)⟩

/-- Claim C3 as stated fails: the malformed header `\x7bbad` followed by the
separator in a first chunk, then the valid header `\x7b\x7d`, the separator and
`T` in a second one.  After the first chunk the buffer is not empty, it still
holds the malformed text, and the whole stream makes no call: no `onMetadata`
with the parsed second header, no `onContent` with `T`. -/
theorem fetchCompressedPage_no_recovery_counterexample :
    sampleParse malformedHeader = none ∧
    sampleParse "\x7b\x7d".toList = some [] ∧
    (∃ next, (Loop.init (List (Text × Text))).iterate sampleParse (Callbacks.quiet _ String)
        (utf8Encode (malformedHeader ++ separator)) = .ok next ∧
      next.buffer = malformedHeader ++ separator ∧ next.buffer ≠ []) ∧
    (fetchCompressedPage
        (samplePlatform (okResponse [utf8Encode (malformedHeader ++ separator),
          utf8Encode ("\x7b\x7d".toList ++ separator ++ "T".toList)]))
        (Callbacks.quiet _ _) "u").calls = [] ∧
    ¬ (Call.onMetadata [] ∈
        (fetchCompressedPage
          (samplePlatform (okResponse [utf8Encode (malformedHeader ++ separator),
            utf8Encode ("\x7b\x7d".toList ++ separator ++ "T".toList)]))
          (Callbacks.quiet _ _) "u").calls) :=
  ⟨by decide, by decide, ⟨_, rfl, by decide, by decide⟩, by decide, by decide⟩

/-- Claim C4 fails on the code.  After the header has been received, a chunk
that holds only the first byte of a three-byte character decodes to the empty
text, and the loop passes that empty text to `onContent`; the branch that
follows the header and the statement after the loop both test for emptiness
first. -/
theorem fetchCompressedPage_empty_content_call :
    (TextDecoder.new.decodeStream [0xE2]).2 = [] ∧
    (fetchCompressedPage
        (samplePlatform (okResponse [utf8Encode ("\x7b\x7d".toList ++ separator), [0xE2]]))
        (Callbacks.quiet _ _) "u").calls = [Call.onMetadata [], Call.onContent []] ∧
    (fetchCompressedPage
        (samplePlatform (okResponse [utf8Encode ("\x7b\x7d".toList ++ separator), []]))
        (Callbacks.quiet _ _) "u").calls = [Call.onMetadata [], Call.onContent []] := by
  decide

/-- Claim C5 fails on the code.  The stream ends with the first two bytes of a
three-byte character pending: the UTF-8 decoding of all the bytes ends with a
replacement character, but the text handed to the loop stops before it, and
the statement after the loop dispatches nothing more. -/
theorem fetchCompressedPage_pending_bytes_dropped :
    utf8Decode ([utf8Encode ("\x7b\x7d".toList ++ separator ++ "a".toList),
        [0xE2, 0x82]].flatten) =
      "\x7b\x7d".toList ++ separator ++ "a".toList ++ [replacementChar] ∧
    streamText TextDecoder.new
        [utf8Encode ("\x7b\x7d".toList ++ separator ++ "a".toList), [0xE2, 0x82]] =
      "\x7b\x7d".toList ++ separator ++ "a".toList ∧
    (fetchCompressedPage
        (samplePlatform (okResponse
          [utf8Encode ("\x7b\x7d".toList ++ separator ++ "a".toList), [0xE2, 0x82]]))
        (Callbacks.quiet _ _) "u").calls =
      [Call.onMetadata [], Call.onContent "a".toList, Call.onContent []] := by
  decide

/-- Claim C6 (no separator).  When the text decoded from the chunks holds no
occurrence of the separator, a successful response makes no callback at all and
the promise resolves, whatever the callbacks are. -/
theorem fetchCompressedPage_no_separator {α ε : Type} (env : Platform α ε)
    (cb : Callbacks α ε) (url : String)
    (response : Response ε) (chunks : List Bytes)
    (hfetch : env.fetch ("/api/process?url=" ++ env.encodeURIComponent url) = .ok response)
    (hok : response.ok = true) (hbody : response.body = chunks.map Except.ok)
    (hnone : ¬ separator <:+: (TextDecoder.new.decodeStream chunks.flatten).2) :
    fetchCompressedPage env cb url = { calls := [], result := .ok () } := by
  apply fetchCompressedPage_of_parse_none env cb url response chunks hfetch hok hbody
  intro a b hab
  exfalso
  apply hnone
  rw [← streamText_eq_decodeStream_join]
  apply (splitFirst_isSome_iff separator _).mp
  rw [hab]
  rfl

theorem fetchCompressedPage_no_separator_witness :
    ¬ separator <:+: (TextDecoder.new.decodeStream
        [utf8Encode "\x7b\x7d---SEPAR".toList, utf8Encode "---SEPARATO".toList,
          utf8Encode "R--".toList].flatten).2 ∧
    fetchCompressedPage
        (samplePlatform (okResponse
          [utf8Encode "\x7b\x7d---SEPAR".toList, utf8Encode "---SEPARATO".toList,
            utf8Encode "R--".toList])) (Callbacks.quiet _ _) "u" =
      { calls := [], result := .ok () } :=
  ⟨by decide,
    fetchCompressedPage_no_separator
      (samplePlatform (okResponse
        [utf8Encode "\x7b\x7d---SEPAR".toList, utf8Encode "---SEPARATO".toList,
          utf8Encode "R--".toList])) (Callbacks.quiet _ _) "u"
      (okResponse
        [utf8Encode "\x7b\x7d---SEPAR".toList, utf8Encode "---SEPARATO".toList,
          utf8Encode "R--".toList])
      [utf8Encode "\x7b\x7d---SEPAR".toList, utf8Encode "---SEPARATO".toList,
        utf8Encode "R--".toList]
      rfl rfl rfl (by decide)⟩

/-- Claim C7 (malformed header is contained).  When the text of the stream has a
separator and the text `M` before its first occurrence is not valid JSON, then
whatever follows and whatever the callbacks are, the promise resolves and no
callback is made: no `onMetadata` call, and no `onContent` call that could carry
the malformed text. -/
theorem fetchCompressedPage_malformed_header_contained {α ε : Type} (env : Platform α ε)
    (cb : Callbacks α ε)
    (url : String) (response : Response ε) (chunks : List Bytes) (M rest : Text)
    (hfetch : env.fetch ("/api/process?url=" ++ env.encodeURIComponent url) = .ok response)
    (hok : response.ok = true) (hbody : response.body = chunks.map Except.ok)
    (htext : streamText TextDecoder.new chunks = M ++ separator ++ rest)
    (hfirst : ∀ a b, streamText TextDecoder.new chunks = a ++ separator ++ b →
      M.length ≤ a.length)
    (hparse : env.parse M = none) :
    (fetchCompressedPage env cb url).result = .ok () ∧
    (fetchCompressedPage env cb url).calls = [] ∧
    (∀ m, Call.onMetadata m ∉ (fetchCompressedPage env cb url).calls) ∧
    (∀ t, Call.onContent t ∉ (fetchCompressedPage env cb url).calls) := by
  have hs := splitFirst_of_minimal separator_ne_nil htext hfirst
  rw [fetchCompressedPage_of_parse_none env cb url response chunks hfetch hok hbody (by
    intro a b hab
    rw [hs] at hab
    simp only [Option.some.injEq, Prod.mk.injEq] at hab
    rw [← hab.1]
    exact hparse)]
  simp

theorem fetchCompressedPage_malformed_header_contained_witness :
    streamText TextDecoder.new
        [utf8Encode (malformedHeader ++ "---SEPARA".toList),
          utf8Encode "TOR---x\x7b\x7d---SEPARATOR---T".toList] =
      malformedHeader ++ separator ++ "x\x7b\x7d---SEPARATOR---T".toList ∧
    sampleParse malformedHeader = none ∧
    (fetchCompressedPage (samplePlatform (okResponse
        [utf8Encode (malformedHeader ++ "---SEPARA".toList),
          utf8Encode "TOR---x\x7b\x7d---SEPARATOR---T".toList]))
        (Callbacks.quiet _ _) "u").result = .ok () ∧
    (fetchCompressedPage (samplePlatform (okResponse
        [utf8Encode (malformedHeader ++ "---SEPARA".toList),
          utf8Encode "TOR---x\x7b\x7d---SEPARATOR---T".toList]))
        (Callbacks.quiet _ _) "u").calls = [] ∧
    (∀ m, Call.onMetadata m ∉ (fetchCompressedPage (samplePlatform (okResponse
        [utf8Encode (malformedHeader ++ "---SEPARA".toList),
          utf8Encode "TOR---x\x7b\x7d---SEPARATOR---T".toList]))
        (Callbacks.quiet _ _) "u").calls) ∧
    (∀ t, Call.onContent t ∉ (fetchCompressedPage (samplePlatform (okResponse
        [utf8Encode (malformedHeader ++ "---SEPARA".toList),
          utf8Encode "TOR---x\x7b\x7d---SEPARATOR---T".toList]))
        (Callbacks.quiet _ _) "u").calls) :=
  ⟨by decide, by decide,
    fetchCompressedPage_malformed_header_contained
      (samplePlatform (okResponse
        [utf8Encode (malformedHeader ++ "---SEPARA".toList),
          utf8Encode "TOR---x\x7b\x7d---SEPARATOR---T".toList]))
      (Callbacks.quiet _ _) "u"
      (okResponse
        [utf8Encode (malformedHeader ++ "---SEPARA".toList),
          utf8Encode "TOR---x\x7b\x7d---SEPARATOR---T".toList])
      [utf8Encode (malformedHeader ++ "---SEPARA".toList),
        utf8Encode "TOR---x\x7b\x7d---SEPARATOR---T".toList]
      malformedHeader "x\x7b\x7d---SEPARATOR---T".toList rfl rfl rfl (by decide)
      (fun a b h => splitFirst_minimal separator_ne_nil
        (show splitFirst separator (streamText TextDecoder.new
            [utf8Encode (malformedHeader ++ "---SEPARA".toList),
              utf8Encode "TOR---x\x7b\x7d---SEPARATOR---T".toList]) =
            some (malformedHeader, "x\x7b\x7d---SEPARATOR---T".toList) by decide) a b h)
      (by decide)⟩

/-- Claim C8 (transport failure).  A response that is not `ok` rejects with an
`Error` whose message is `HTTP <status>: <statusText>` and makes no callback.
When a read fails after the chunks of `delivered` have been read, the promise
rejects with that failure and the calls made are exactly the calls of the
loop on `delivered`; for callbacks that return normally these are also the
calls of a successful response that delivers `delivered` and ends. -/
theorem fetchCompressedPage_transport_failure {α ε : Type} (env : Platform α ε)
    (cb : Callbacks α ε) (url : String) (response : Response ε)
    (hfetch : env.fetch ("/api/process?url=" ++ env.encodeURIComponent url) = .ok response) :
    (response.ok = false →
      fetchCompressedPage env cb url =
        { calls := [],
          result := .error (.error
            ("HTTP " ++ toString response.status ++ ": " ++ response.statusText)) }) ∧
    (∀ (delivered : List Bytes) (e : ε) (rest : List (Except ε Bytes)) (next : Loop α),
      response.ok = true →
      response.body = delivered.map Except.ok ++ Except.error e :: rest →
      (Loop.init α).iterateAll env.parse cb delivered = .ok next →
      (fetchCompressedPage env cb url).result = .error (.cause e) ∧
      (fetchCompressedPage env cb url).calls = next.calls) ∧
    (∀ (delivered : List Bytes) (e : ε) (rest : List (Except ε Bytes)),
      cb.ReturnNormally →
      response.ok = true →
      response.body = delivered.map Except.ok ++ Except.error e :: rest →
      (fetchCompressedPage env cb url).result = .error (.cause e) ∧
      (∃ next, (Loop.init α).iterateAll env.parse cb delivered = .ok next ∧
        (fetchCompressedPage env cb url).calls = next.calls) ∧
      (fetchCompressedPage env cb url).calls =
        (fetchCompressedPage (env.answering (response.delivering delivered)) cb url).calls) := by
  have hread : ∀ (delivered : List Bytes) (e : ε) (rest : List (Except ε Bytes))
      (next : Loop α), response.ok = true →
      response.body = delivered.map Except.ok ++ Except.error e :: rest →
      (Loop.init α).iterateAll env.parse cb delivered = .ok next →
      fetchCompressedPage env cb url = { calls := next.calls, result := .error (.cause e) } := by
    intro delivered e rest next hok hbody hnext
    unfold fetchCompressedPage
    simp only [hfetch, hok, hbody, Bool.not_true, Bool.false_eq_true, if_false,
      Loop.readAll_error, hnext]
  refine ⟨?_, ?_, ?_⟩
  · intro hok
    unfold fetchCompressedPage
    simp [hfetch, hok]
  · intro delivered e rest next hok hbody hnext
    rw [hread delivered e rest next hok hbody hnext]
    exact ⟨rfl, rfl⟩
  · intro delivered e rest hcb hok hbody
    obtain ⟨next, hnext, _, hclean⟩ := fetchCompressedPage_of_returnNormally
      (env.answering (response.delivering delivered)) cb hcb url
      (response.delivering delivered) delivered rfl hok rfl
    have hnext1 : (Loop.init α).iterateAll env.parse cb delivered = .ok next := hnext
    rw [hread delivered e rest next hok hbody hnext1, hclean]
    exact ⟨rfl, ⟨next, hnext1, rfl⟩, rfl⟩

theorem fetchCompressedPage_transport_failure_witness :
    fetchCompressedPage
        (samplePlatform { ok := false, status := 502, statusText := "Bad Gateway",
                          body := [.ok (utf8Encode sampleHeader)] })
        (Callbacks.quiet _ _) "u" =
      { calls := [], result := .error (.error "HTTP 502: Bad Gateway") } ∧
    (fetchCompressedPage
        (samplePlatform { ok := true, status := 200, statusText := "OK",
                          body := sampleChunks.map Except.ok ++
                            [.error "network error", .ok (utf8Encode "more".toList)] })
        (Callbacks.quiet _ _) "u").result = .error (.cause "network error") ∧
    (fetchCompressedPage
        (samplePlatform { ok := true, status := 200, statusText := "OK",
                          body := sampleChunks.map Except.ok ++
                            [.error "network error", .ok (utf8Encode "more".toList)] })
        (Callbacks.quiet _ _) "u").calls =
      [Call.onMetadata [("url".toList, "café".toList)],
        Call.onContent "a---SEPARATOR---b".toList, Call.onContent "€".toList] :=
  ⟨(fetchCompressedPage_transport_failure
      (samplePlatform { ok := false, status := 502, statusText := "Bad Gateway",
                        body := [.ok (utf8Encode sampleHeader)] })
      (Callbacks.quiet _ _) "u"
      { ok := false, status := 502, statusText := "Bad Gateway",
        body := [.ok (utf8Encode sampleHeader)] } rfl).1 rfl,
    ((fetchCompressedPage_transport_failure
      (samplePlatform { ok := true, status := 200, statusText := "OK",
                        body := sampleChunks.map Except.ok ++
                          [.error "network error", .ok (utf8Encode "more".toList)] })
      (Callbacks.quiet _ _) "u"
      { ok := true, status := 200, statusText := "OK",
        body := sampleChunks.map Except.ok ++
          [.error "network error", .ok (utf8Encode "more".toList)] } rfl).2.2
      sampleChunks "network error" [.ok (utf8Encode "more".toList)]
      ⟨fun _ _ => rfl, fun _ _ => rfl⟩ rfl rfl).1,
    by decide⟩

/-! ## The history list -/

theorem addToHistory_eq (formatBytes : Nat → String) (now : Nat) (m : Metadata)
    (prev : List HistoryEntry) :
    addToHistory formatBytes now m prev =
      newEntry formatBytes now m ::
        (prev.filter fun item => item.url != m.meta.url).take 4 := by
  simp [addToHistory, newEntry]

theorem take_cons_take (x : HistoryEntry) (l : List HistoryEntry) :
    (x :: l.take 5).take 5 = (x :: l).take 5 := by
  simp [List.take_take]

/-- Claim C9 (history update).  The updated list has at most 5 entries; its
first entry is the newly built one; no later entry has its url; the later
entries are the prior entries with another url, in their prior order, as far as
four of them go; urls that were pairwise distinct stay so; and recording the
same url a second time leaves one entry for it, the first, with the later
timestamp. -/
theorem addToHistory_postcondition (formatBytes : Nat → String) (now : Nat) (m : Metadata)
    (prev : List HistoryEntry) :
    (addToHistory formatBytes now m prev).length ≤ 5 ∧
    (addToHistory formatBytes now m prev).head? = some (newEntry formatBytes now m) ∧
    (newEntry formatBytes now m).url = m.meta.url ∧
    (newEntry formatBytes now m).timestamp = now ∧
    (∀ e ∈ (addToHistory formatBytes now m prev).tail, e.url ≠ m.meta.url) ∧
    (addToHistory formatBytes now m prev).tail =
      (prev.filter fun item => item.url != m.meta.url).take 4 ∧
    (addToHistory formatBytes now m prev).tail.Sublist prev ∧
    ((prev.map HistoryEntry.url).Nodup →
      ((addToHistory formatBytes now m prev).map HistoryEntry.url).Nodup) ∧
    (∀ (later : Nat) (again : Metadata), again.meta.url = m.meta.url →
      (addToHistory formatBytes later again (addToHistory formatBytes now m prev)).head? =
        some (newEntry formatBytes later again) ∧
      (addToHistory formatBytes later again (addToHistory formatBytes now m prev)).filter
          (fun item => item.url == m.meta.url) =
        [newEntry formatBytes later again]) := by
  have hfilter : ∀ (u : String) (l : List HistoryEntry),
      ∀ e ∈ (l.filter fun item => item.url != u).take 4, e.url ≠ u := by
    intro u l e he
    have := List.mem_of_mem_take he
    simpa using (List.mem_filter.mp this).2
  have hnone : ∀ (u : String) (l : List HistoryEntry), (∀ e ∈ l, e.url ≠ u) →
      l.filter (fun item => item.url == u) = [] := by
    intro u l hl
    simpa [List.filter_eq_nil_iff] using hl
  refine ⟨?_, ?_, rfl, rfl, ?_, ?_, ?_, ?_, ?_⟩
  · rw [addToHistory_eq]
    simp only [List.length_cons, List.length_take]
    omega
  · rw [addToHistory_eq]; rfl
  · rw [addToHistory_eq]
    exact hfilter _ _
  · rw [addToHistory_eq]; rfl
  · rw [addToHistory_eq]
    exact ((List.take_sublist _ _).trans (List.filter_sublist _))
  · intro hnd
    rw [addToHistory_eq, List.map_cons, List.nodup_cons]
    constructor
    · intro hmem
      obtain ⟨e, he, hu⟩ := List.mem_map.mp hmem
      exact hfilter _ _ e he hu
    · exact (((List.take_sublist _ _).trans (List.filter_sublist _)).map _).nodup hnd
  · intro later again hurl
    constructor
    · rw [addToHistory_eq]; rfl
    · rw [addToHistory_eq formatBytes later again, hurl]
      rw [List.filter_cons_of_pos (by simp [newEntry, hurl])]
      rw [hnone _ _ (hfilter _ _)]

theorem addToHistory_postcondition_witness :
    (([{ title := "A", url := "a", timestamp := 1, savedFormatted := "1 KB" },
        { title := "B", url := "b", timestamp := 2, savedFormatted := "2 KB" }] :
        List HistoryEntry).map HistoryEntry.url).Nodup ∧
    ((addToHistory (fun n => toString n ++ " B") 7
        { meta := { title := none, url := "a", original_size_bytes := some 10 } }
        [{ title := "A", url := "a", timestamp := 1, savedFormatted := "1 KB" },
          { title := "B", url := "b", timestamp := 2, savedFormatted := "2 KB" }]).map
      HistoryEntry.url).Nodup ∧
    addToHistory (fun n => toString n ++ " B") 7
        { meta := { title := none, url := "a", original_size_bytes := some 10 } }
        [{ title := "A", url := "a", timestamp := 1, savedFormatted := "1 KB" },
          { title := "B", url := "b", timestamp := 2, savedFormatted := "2 KB" }] =
      [{ title := "Untitled Page", url := "a", timestamp := 7, savedFormatted := "10 B" },
        { title := "B", url := "b", timestamp := 2, savedFormatted := "2 KB" }] :=
  ⟨by decide,
    (addToHistory_postcondition (fun n => toString n ++ " B") 7
        { meta := { title := none, url := "a", original_size_bytes := some 10 } }
        [{ title := "A", url := "a", timestamp := 1, savedFormatted := "1 KB" },
          { title := "B", url := "b", timestamp := 2, savedFormatted := "2 KB" }]).2.2.2.2.2.2.2.1
      (by decide),
    by decide⟩

theorem recordAll_append (formatBytes : Nat → String) (events : List (Nat × Metadata))
    (ev : Nat × Metadata) (start : List HistoryEntry) :
    recordAll formatBytes (events ++ [ev]) start =
      addToHistory formatBytes ev.1 ev.2 (recordAll formatBytes events start) := by
  simp [recordAll, List.foldl_append]

theorem recordAll_distinct (formatBytes : Nat → String) (events : List (Nat × Metadata))
    (hdistinct : (events.map fun ev => ev.2.meta.url).Nodup) :
    recordAll formatBytes events [] =
      ((events.map fun ev => newEntry formatBytes ev.1 ev.2).reverse).take 5 := by
  induction events using List.reverseRecOn with
  | nil => rfl
  | append_singleton es e ih =>
    rw [List.map_append, List.nodup_append] at hdistinct
    obtain ⟨hes, _, hdisj⟩ := hdistinct
    rw [recordAll_append, ih hes]
    have hkeep : ((es.map fun ev => newEntry formatBytes ev.1 ev.2).reverse.take 5).filter
        (fun item => item.url != (newEntry formatBytes e.1 e.2).url) =
        (es.map fun ev => newEntry formatBytes ev.1 ev.2).reverse.take 5 := by
      rw [List.filter_eq_self]
      intro x hx
      have hx1 := List.mem_of_mem_take hx
      rw [List.mem_reverse, List.mem_map] at hx1
      obtain ⟨ev, hev, rfl⟩ := hx1
      have hne : ev.2.meta.url ≠ e.2.meta.url := by
        intro heq
        apply hdisj (a := ev.2.meta.url)
        · exact List.mem_map.mpr ⟨ev, hev, rfl⟩
        · simp [heq]
      simpa [newEntry] using hne
    unfold addToHistory
    simp only []
    rw [hkeep, take_cons_take]
    simp

/-- Claim C10 (capacity and eviction order).  From the empty history, recording
metadata for pairwise distinct urls leaves the entries of the most recent
recordings, newest first, `min n 5` of them; after six recordings the urls are
those of the sixth down to the second, the first one being evicted. -/
theorem recordAll_capacity (formatBytes : Nat → String) (events : List (Nat × Metadata))
    (hdistinct : (events.map fun ev => ev.2.meta.url).Nodup) :
    recordAll formatBytes events [] =
      ((events.map fun ev => newEntry formatBytes ev.1 ev.2).reverse).take 5 ∧
    (recordAll formatBytes events []).length = min events.length 5 ∧
    (recordAll formatBytes events []).map HistoryEntry.url =
      ((events.map fun ev => ev.2.meta.url).reverse).take 5 ∧
    (∀ e1 e2 e3 e4 e5 e6 : Nat × Metadata, events = [e1, e2, e3, e4, e5, e6] →
      (recordAll formatBytes events []).map HistoryEntry.url =
        [e6.2.meta.url, e5.2.meta.url, e4.2.meta.url, e3.2.meta.url, e2.2.meta.url]) := by
  have h := recordAll_distinct formatBytes events hdistinct
  refine ⟨h, ?_, ?_, ?_⟩
  · rw [h]
    simp [Nat.min_comm]
  · rw [h, List.map_take, ← List.map_reverse, ← List.map_reverse, List.map_map]
    rfl
  · intro e1 e2 e3 e4 e5 e6 hev
    rw [h, hev]
    rfl

theorem recordAll_capacity_witness :
    (([(1, { meta := { title := some "one", url := "u1", original_size_bytes := none } }),
        (2, { meta := { title := some "two", url := "u2", original_size_bytes := none } }),
        (3, { meta := { title := some "three", url := "u3", original_size_bytes := none } }),
        (4, { meta := { title := some "four", url := "u4", original_size_bytes := none } }),
        (5, { meta := { title := some "five", url := "u5", original_size_bytes := none } }),
        (6, { meta := { title := some "six", url := "u6", original_size_bytes := none } })] :
        List (Nat × Metadata)).map fun ev => ev.2.meta.url).Nodup ∧
    (recordAll (fun n => toString n ++ " B")
        [(1, { meta := { title := some "one", url := "u1", original_size_bytes := none } }),
          (2, { meta := { title := some "two", url := "u2", original_size_bytes := none } }),
          (3, { meta := { title := some "three", url := "u3", original_size_bytes := none } }),
          (4, { meta := { title := some "four", url := "u4", original_size_bytes := none } }),
          (5, { meta := { title := some "five", url := "u5", original_size_bytes := none } }),
          (6, { meta := { title := some "six", url := "u6", original_size_bytes := none } })]
        []).map HistoryEntry.url = ["u6", "u5", "u4", "u3", "u2"] :=
  ⟨by decide,
    (recordAll_capacity (fun n => toString n ++ " B")
        [(1, { meta := { title := some "one", url := "u1", original_size_bytes := none } }),
          (2, { meta := { title := some "two", url := "u2", original_size_bytes := none } }),
          (3, { meta := { title := some "three", url := "u3", original_size_bytes := none } }),
          (4, { meta := { title := some "four", url := "u4", original_size_bytes := none } }),
          (5, { meta := { title := some "five", url := "u5", original_size_bytes := none } }),
          (6, { meta := { title := some "six", url := "u6", original_size_bytes := none } })]
        (by decide)).2.2.2 _ _ _ _ _ _ rfl⟩

/-! ## The initial history -/

/-- The cases of the initialiser.  The initial history is the empty list when
`window` is undefined, when `getItem` throws, when the slot is missing or holds
the empty string, and when the stored text does not parse.  When the stored
text parses, the initial history is the parsed value; in particular it is the
stored list when the text is the JSON array of a list of history entries. -/
theorem initialHistory_cases {ε : Type} (env : Browser ε) :
    (env.windowDefined = false → initialHistory env = historyValue []) ∧
    (∀ e, env.getItem "optify_history" = .error e → initialHistory env = historyValue []) ∧
    (env.getItem "optify_history" = .ok none → initialHistory env = historyValue []) ∧
    (env.getItem "optify_history" = .ok (some []) → initialHistory env = historyValue []) ∧
    (∀ text, env.getItem "optify_history" = .ok (some text) → env.parse text = none →
      initialHistory env = historyValue []) ∧
    (∀ text value, env.windowDefined = true →
      env.getItem "optify_history" = .ok (some text) → text ≠ [] →
      env.parse text = some value → initialHistory env = value) ∧
    (∀ text l, env.windowDefined = true →
      env.getItem "optify_history" = .ok (some text) → text ≠ [] →
      env.parse text = some (historyValue l) → initialHistory env = historyValue l) ∧
    (initialHistory env = historyValue [] ∨
      ∃ text value, env.getItem "optify_history" = .ok (some text) ∧ text ≠ [] ∧
        env.parse text = some value ∧ initialHistory env = value) := by
  have hparsed : ∀ text value, env.windowDefined = true →
      env.getItem "optify_history" = .ok (some text) → text ≠ [] →
      env.parse text = some value → initialHistory env = value := by
    intro text value hw hg ht hp
    simp [initialHistory, savedHistory, hw, hg, ht, hp]
  refine ⟨?_, ?_, ?_, ?_, ?_, hparsed, fun text l => hparsed text (historyValue l), ?_⟩
  · intro hw
    simp [initialHistory, hw, historyValue]
  · intro e hg
    cases hw : env.windowDefined <;> simp [initialHistory, savedHistory, hw, hg, historyValue]
  · intro hg
    cases hw : env.windowDefined <;> simp [initialHistory, savedHistory, hw, hg, historyValue]
  · intro hg
    cases hw : env.windowDefined <;> simp [initialHistory, savedHistory, hw, hg, historyValue]
  · intro text hg hp
    cases hw : env.windowDefined <;>
      by_cases ht : text = [] <;>
        simp [initialHistory, savedHistory, hw, hg, hp, ht, historyValue]
  · cases hw : env.windowDefined with
    | false => left; simp [initialHistory, hw, historyValue]
    | true =>
      cases hg : env.getItem "optify_history" with
      | error e => left; simp [initialHistory, savedHistory, hw, hg, historyValue]
      | ok saved =>
        cases saved with
        | none => left; simp [initialHistory, savedHistory, hw, hg, historyValue]
        | some text =>
          by_cases ht : text = []
          · left; simp [initialHistory, savedHistory, hw, hg, ht, historyValue]
          · cases hp : env.parse text with
            | none => left; simp [initialHistory, savedHistory, hw, hg, ht, hp, historyValue]
            | some value => exact Or.inr ⟨text, value, rfl, ht, hp, hparsed text value hw hg ht hp⟩

theorem initialHistory_cases_witness :
    sampleJson storedHistoryText =
      some (historyValue
        [{ title := "A", url := "a", timestamp := 17, savedFormatted := "1 KB" }]) ∧
    initialHistory (sampleBrowser (some storedHistoryText)) =
      historyValue [{ title := "A", url := "a", timestamp := 17, savedFormatted := "1 KB" }] ∧
    sampleJson "\x7bbad".toList = none ∧
    initialHistory (sampleBrowser (some "\x7bbad".toList)) = historyValue [] ∧
    initialHistory (sampleBrowser none) = historyValue [] :=
  ⟨rfl,
    (initialHistory_cases (sampleBrowser (some storedHistoryText))).2.2.2.2.2.2.1
      storedHistoryText
      [{ title := "A", url := "a", timestamp := 17, savedFormatted := "1 KB" }]
      rfl rfl (by decide) rfl,
    rfl,
    (initialHistory_cases (sampleBrowser (some "\x7bbad".toList))).2.2.2.2.1
      "\x7bbad".toList rfl rfl,
    (initialHistory_cases (sampleBrowser none)).2.2.1 rfl⟩

/-- Claim C11 fails on the code.  When the slot holds the valid JSON texts
`null`, `123` or `\x7b\x7d`, nothing throws, so the `catch` that answers the
empty list is not reached, and the initial history is the parsed value (null,
a number, an object): neither the empty list nor any list of history entries. -/
theorem initialHistory_wrong_shape :
    (sampleJson "null".toList = some Json.null ∧
      initialHistory (sampleBrowser (some "null".toList)) = Json.null ∧
      ∀ l, Json.null ≠ historyValue l) ∧
    (sampleJson "123".toList = some (Json.number 123) ∧
      initialHistory (sampleBrowser (some "123".toList)) = Json.number 123 ∧
      ∀ l, Json.number 123 ≠ historyValue l) ∧
    (sampleJson "\x7b\x7d".toList = some (Json.object []) ∧
      initialHistory (sampleBrowser (some "\x7b\x7d".toList)) = Json.object [] ∧
      ∀ l, Json.object [] ≠ historyValue l) :=
  ⟨⟨rfl, rfl, fun _ h => Json.noConfusion h⟩,
    ⟨rfl, rfl, fun _ h => Json.noConfusion h⟩,
    ⟨rfl, rfl, fun _ h => Json.noConfusion h⟩⟩

end Optify
